import Mathlib

/-!
OV²SLAM motion model (`include/visual_front_end.hpp`, class `MotionModel`)

A shallow embedding of the constant-velocity / wheel-encoder motion model of the
visual front end, and proofs about it.

* Time stamps and wheel travels (`double` inputs) are exact rationals.
* The components of a twist and the coordinates of a pose are `F64` values: an exact
  rational, or a value that is not finite.  Dividing by a zero time step gives a value
  that is not finite, and such a value stays not finite under the operations the motion
  model applies to it.  Rounding is not represented.
* `Sophus::SE3d` is an external library type.  Its operations are taken as a
  parameter (`SE3Ops`); group laws are hypotheses of the theorems that need them.
* `exit(-1)` and a read of a member that has no initialiser are the two faults a call
  can end in; a call that returns gives `Except.ok`.
-/

namespace OV2SLAM

/-! ## Scalars that need not be finite -/

/-- A `double` that is the result of arithmetic: an exact rational, or a value that is
not finite (`±inf` or `NaN`). -/
inductive F64 where
  | fin (q : ℚ)
  | nonfinite
  deriving DecidableEq, Repr

namespace F64

instance : Zero F64 := ⟨fin 0⟩

instance : One F64 := ⟨fin 1⟩

instance : NatCast F64 := ⟨fun n => fin n⟩

/-- The sum `a + b`. -/
def add : F64 → F64 → F64
  | fin a, fin b => fin (a + b)
  | _, _ => nonfinite

/-- The negation `-a`. -/
def neg : F64 → F64
  | fin a => fin (-a)
  | nonfinite => nonfinite

/-- The product `a * k` with a finite `k`. -/
def mulq : F64 → ℚ → F64
  | fin a, k => fin (a * k)
  | nonfinite, _ => nonfinite

/-- The quotient `a / k` by a finite `k`: not finite when `k` is zero. -/
def divq (a : F64) (k : ℚ) : F64 :=
  if k = 0 then nonfinite
  else
    match a with
    | fin q => fin (q / k)
    | nonfinite => nonfinite

/-- The comparison `|a| <= prec`, false for a value that is not finite. -/
def absLe : F64 → ℚ → Bool
  | fin a, prec => decide (|a| ≤ prec)
  | nonfinite, _ => false

end F64

/-! ## Tangent vectors (`Eigen::Matrix<double, 6, 1>`) -/

/-- A six-vector: three linear components followed by three angular components. -/
structure Vec6 where
  x0 : F64
  x1 : F64
  x2 : F64
  x3 : F64
  x4 : F64
  x5 : F64
  deriving DecidableEq, Repr

namespace Vec6

/-- The vector `Eigen::Matrix<double, 6, 1>::Zero()`. -/
def Zero : Vec6 := ⟨0, 0, 0, 0, 0, 0⟩

/-- The product `v * k` of a vector and a scalar. -/
def smul (v : Vec6) (k : ℚ) : Vec6 :=
  ⟨v.x0.mulq k, v.x1.mulq k, v.x2.mulq k, v.x3.mulq k, v.x4.mulq k, v.x5.mulq k⟩

/-- The quotient `v / k` of a vector and a scalar. -/
def sdiv (v : Vec6) (k : ℚ) : Vec6 :=
  ⟨v.x0.divq k, v.x1.divq k, v.x2.divq k, v.x3.divq k, v.x4.divq k, v.x5.divq k⟩

/-- Eigen's `isZero(prec)`: every coefficient `c` satisfies `|c| ≤ |1| * prec`. -/
def isZero (v : Vec6) (prec : ℚ) : Bool :=
  v.x0.absLe prec && v.x1.absLe prec && v.x2.absLe prec &&
  v.x3.absLe prec && v.x4.absLe prec && v.x5.absLe prec

/-- The vector all of whose components are not finite. -/
def nonfinite : Vec6 :=
  ⟨.nonfinite, .nonfinite, .nonfinite, .nonfinite, .nonfinite, .nonfinite⟩

end Vec6

/-! ## External collaborators -/

/-- The operations of `Sophus::SE3d` that the motion model uses, on a pose type `P`. -/
structure SE3Ops (P : Type) where
  /-- The default-constructed pose. -/
  identity : P
  /-- Composition `a * b`. -/
  mul : P → P → P
  /-- The inverse `a.inverse()`. -/
  inverse : P → P
  /-- The exponential `Sophus::SE3d::exp`. -/
  exp : Vec6 → P
  /-- The logarithm `a.log()`. -/
  log : P → Vec6

/-- Modelled from the spec: `WheelEncoder::EncoderData` (declared in
`wheel_encoder.hpp`), the reading {left_wheel_travel, right_wheel_travel, timestamp}. -/
structure EncoderData where
  left_wheel_travel : ℚ
  right_wheel_travel : ℚ
  timestamp : ℚ
  deriving DecidableEq, Repr

/-- Modelled from the spec: the values of the static functions
`WheelEncoder::getWheelBase()` and `WheelEncoder::useWheelEncoder()` (declared in
`wheel_encoder.hpp`), the configuration {wheelbase, enabled}. -/
structure WheelEncoder where
  getWheelBase : ℚ
  useWheelEncoder : Bool
  deriving DecidableEq, Repr

/-! ## The predictor -/

/-- How a call can end without returning. -/
inductive Fault where
  /-- The call reached `exit(-1)`. -/
  | fatalExit
  /-- The call read `use_enc` or `enc_wheelbase` before any assignment to it. -/
  | uninitRead
  deriving DecidableEq, Repr

/-- The data members of `MotionModel`.  `enc_wheelbase` and `use_enc` have no
initialiser in the class, so they are `none` until assigned. -/
structure MotionModel (P : Type) where
  prev_time_ : ℚ
  prev_enc_left_ : ℚ
  prev_enc_right_ : ℚ
  prev_enc_time_ : ℚ
  enc_left : ℚ
  enc_right : ℚ
  prevTwc_ : P
  log_relT_ : Vec6
  enc_wheelbase : Option ℚ
  use_enc : Option Bool

/-- A default-constructed `MotionModel`: the in-class member initialisers. -/
def MotionModel.construct {P : Type} (G : SE3Ops P) : MotionModel P where
  prev_time_ := -1
  prev_enc_left_ := 0
  prev_enc_right_ := 0
  prev_enc_time_ := -1
  enc_left := 0
  enc_right := 0
  prevTwc_ := G.identity
  log_relT_ := Vec6.Zero
  enc_wheelbase := none
  use_enc := none

/-- The loop-closure reconciliation at the head of `applyMotionModel`: the anchor is
replaced by `Twc` when `(Twc * prevTwc_.inverse()).log()` is not zero to `1.e-5`. -/
def reconcile {P : Type} (G : SE3Ops P) (m : MotionModel P) (Twc : P) : MotionModel P :=
  if !((G.log (G.mul Twc (G.inverse m.prevTwc_))).isZero (1 / 100000)) then
    { m with prevTwc_ := Twc }
  else m

/-- The method `applyMotionModel(Twc, time, enc_data)`.  The result is the state after
the call together with the value left in the reference `Twc`.  The quotients by 2 and
by the wheelbase, a configuration constant, are exact; the quotient by `dt` is not
finite when `dt` is zero. -/
def applyMotionModel {P : Type} (G : SE3Ops P) (m : MotionModel P) (Twc : P) (time : ℚ)
    (enc_data : EncoderData) : Except Fault (MotionModel P × P) :=
  if 0 < m.prev_time_ then
    let m1 := reconcile G m Twc
    let dt := time - m1.prev_time_
    match m1.use_enc with
    | none => .error .uninitRead
    | some true =>
      let m2 := { m1 with enc_left := enc_data.left_wheel_travel,
                          enc_right := enc_data.right_wheel_travel }
      let d_L := m2.enc_left - m2.prev_enc_left_
      let d_R := m2.enc_right - m2.prev_enc_right_
      let velocity := F64.divq (.fin ((d_L + d_R) / 2)) dt
      match m2.enc_wheelbase with
      | none => .error .uninitRead
      | some wb =>
        let angular_velocity := F64.divq (.fin ((d_L - d_R) / wb)) dt
        let m3 := { m2 with log_relT_ := ⟨0, 0, velocity, 0, angular_velocity, 0⟩ }
        .ok (m3, G.mul Twc (G.exp (m3.log_relT_.smul dt)))
    | some false => .ok (m1, G.mul Twc (G.exp (m1.log_relT_.smul dt)))
  else .ok (m, Twc)

/-- The method `updateMotionModel(Twc, time)`; `W` gives the values the static
`WheelEncoder` functions return. -/
def updateMotionModel {P : Type} (G : SE3Ops P) (W : WheelEncoder) (m : MotionModel P)
    (Twc : P) (time : ℚ) : Except Fault (MotionModel P) :=
  if m.prev_time_ < 0 then
    .ok { m with prev_time_ := time,
                 prevTwc_ := Twc,
                 prev_enc_left_ := m.enc_left,
                 prev_enc_right_ := m.enc_right,
                 enc_wheelbase := some W.getWheelBase,
                 use_enc := some W.useWheelEncoder }
  else
    let dt := time - m.prev_time_
    let m1 := { m with prev_time_ := time }
    if dt < 0 then .error .fatalExit
    else
      match m1.use_enc with
      | none => .error .uninitRead
      | some ue =>
        let m2 :=
          if !ue then
            let Tprevcur := G.mul (G.inverse m1.prevTwc_) Twc
            { m1 with log_relT_ := (G.log Tprevcur).sdiv dt }
          else m1
        .ok { m2 with prevTwc_ := Twc,
                      prev_enc_left_ := m2.enc_left,
                      prev_enc_right_ := m2.enc_right }

/-- The method `reset()`. -/
def reset {P : Type} (m : MotionModel P) : MotionModel P :=
  { m with prev_time_ := -1, log_relT_ := Vec6.Zero }

/-! ## A concrete pose type for evaluation -/

/-- The additive group of six-vectors as a pose type: composition is addition and
`exp`, `log` are the identity map.  On vectors with zero angular part this is the
translation subgroup of SE(3). -/
def vecOps : SE3Ops Vec6 where
  identity := Vec6.Zero
  mul a b := ⟨a.x0.add b.x0, a.x1.add b.x1, a.x2.add b.x2, a.x3.add b.x3, a.x4.add b.x4,
    a.x5.add b.x5⟩
  inverse a := ⟨a.x0.neg, a.x1.neg, a.x2.neg, a.x3.neg, a.x4.neg, a.x5.neg⟩
  exp v := v
  log a := a

/-! ## Runs -/

/-- One call on the predictor. -/
inductive Call (P : Type) where
  | apply (Twc : P) (time : ℚ) (enc_data : EncoderData)
  | update (Twc : P) (time : ℚ)
  | reset

/-- The state after one call, and the pose an `apply` leaves in `Twc`. -/
def Call.exec {P : Type} (G : SE3Ops P) (W : WheelEncoder) (m : MotionModel P) :
    Call P → Except Fault (MotionModel P × Option P)
  | .apply Twc time enc_data =>
    match applyMotionModel G m Twc time enc_data with
    | .error f => .error f
    | .ok (m', Twc') => .ok (m', some Twc')
  | .update Twc time =>
    match updateMotionModel G W m Twc time with
    | .error f => .error f
    | .ok m' => .ok (m', none)
  | .reset => .ok (OV2SLAM.reset m, none)

/-- The poses the `apply` calls of a sequence return, in order; a fault ends the run. -/
def posesReturned {P : Type} (G : SE3Ops P) (W : WheelEncoder) :
    MotionModel P → List (Call P) → Except Fault (List P)
  | _, [] => .ok []
  | m, c :: cs =>
    match c.exec G W m with
    | .error f => .error f
    | .ok (m', none) => posesReturned G W m' cs
    | .ok (m', some Twc') =>
      match posesReturned G W m' cs with
      | .error f => .error f
      | .ok ps => .ok (Twc' :: ps)

/-- The states reachable from construction by `apply`, `update` and `reset` calls that
return. -/
inductive Reachable {P : Type} (G : SE3Ops P) (W : WheelEncoder) : MotionModel P → Prop
  | construct : Reachable G W (MotionModel.construct G)
  | apply {m m' : MotionModel P} {Twc Twc' : P} {time : ℚ} {enc_data : EncoderData} :
      Reachable G W m → applyMotionModel G m Twc time enc_data = .ok (m', Twc') →
      Reachable G W m'
  | update {m m' : MotionModel P} {Twc : P} {time : ℚ} :
      Reachable G W m → updateMotionModel G W m Twc time = .ok m' → Reachable G W m'
  | reset {m : MotionModel P} : Reachable G W m → Reachable G W (OV2SLAM.reset m)

/-- Two predictors that no visual-only run can tell apart: same stored time and twist,
and, once the stored time is not negative, same anchor and `use_enc = false`. -/
def VisEquiv {P : Type} (a b : MotionModel P) : Prop :=
  a.prev_time_ = b.prev_time_ ∧ a.log_relT_ = b.log_relT_ ∧
  (0 ≤ a.prev_time_ →
    a.prevTwc_ = b.prevTwc_ ∧ a.use_enc = some false ∧ b.use_enc = some false)

/-- The states after each call of a sequence, in order; a fault ends the run. -/
def statesAlong {P : Type} (G : SE3Ops P) (W : WheelEncoder) :
    MotionModel P → List (Call P) → Except Fault (List (MotionModel P))
  | _, [] => .ok []
  | m, c :: cs =>
    match c.exec G W m with
    | .error f => .error f
    | .ok (m', _) =>
      match statesAlong G W m' cs with
      | .error f => .error f
      | .ok ss => .ok (m' :: ss)

/-- The calls of a run in which every frame `(t, enc)` is processed as
`apply(Pose, t, enc)` followed by `update(Pose, t)`, with one and the same pose. -/
def stationaryCalls {P : Type} (Pose : P) : List (ℚ × EncoderData) → List (Call P)
  | [] => []
  | f :: fs => .apply Pose f.1 f.2 :: .update Pose f.1 :: stationaryCalls Pose fs

/-- A visual-only predictor at rest at `Pose`: zero twist and, once the stored time is
not negative, anchor `Pose` and `use_enc = false`. -/
def AtRest {P : Type} (Pose : P) (m : MotionModel P) : Prop :=
  m.log_relT_ = Vec6.Zero ∧
  (0 ≤ m.prev_time_ → m.prevTwc_ = Pose ∧ m.use_enc = some false)

/-! ## Concrete data for evaluation -/

/-- A visual-only configuration. -/
def visualOnly : WheelEncoder := ⟨1 / 2, false⟩

/-- An encoder-fused configuration with wheelbase 0.5. -/
def encoderFused : WheelEncoder := ⟨1 / 2, true⟩

/-- The pure translation by `(x, y, z)`. -/
def translation (x y z : ℚ) : Vec6 := ⟨.fin x, .fin y, .fin z, 0, 0, 0⟩

/-- An encoder reading with the given travels, stamped 0. -/
def reading (l r : ℚ) : EncoderData := ⟨l, r, 0⟩

/-- A visual-only predictor after two accepted frames: the origin at time 1 and one
metre ahead at time 2, so that the stored twist is one metre per second along z. -/
def cruising : MotionModel Vec6 where
  prev_time_ := 2
  prev_enc_left_ := 0
  prev_enc_right_ := 0
  prev_enc_time_ := -1
  enc_left := 0
  enc_right := 0
  prevTwc_ := translation 0 0 1
  log_relT_ := ⟨0, 0, 1, 0, 0, 0⟩
  enc_wheelbase := some (1 / 2)
  use_enc := some false

/-- An encoder-fused predictor with wheelbase 0.5 whose last update was at time 1 with
both wheels at travel 0. -/
def rolling : MotionModel Vec6 where
  prev_time_ := 1
  prev_enc_left_ := 0
  prev_enc_right_ := 0
  prev_enc_time_ := -1
  enc_left := 0
  enc_right := 0
  prevTwc_ := translation 0 0 0
  log_relT_ := Vec6.Zero
  enc_wheelbase := some (1 / 2)
  use_enc := some true

/-- The state `rolling` after one prediction at time 2 with both wheels at travel 5. -/
def rolled : MotionModel Vec6 :=
  { rolling with enc_left := 5, enc_right := 5, log_relT_ := ⟨0, 0, 5, 0, 0, 0⟩ }

/-- Two calls of an encoder-fused run: a frame accepted at the origin at time 10, then
a prediction at time 11 with both wheels at travel 6. -/
def restartCalls : List (Call Vec6) :=
  [.update (translation 0 0 0) 10, .apply (translation 0 0 0) 11 (reading 6 6)]

/-- Ten frames at `dt = 0.05`, starting at time 0, all with encoder travel (0, 0). -/
def tenFrames : List (ℚ × EncoderData) :=
  [(0, reading 0 0), (1 / 20, reading 0 0), (2 / 20, reading 0 0), (3 / 20, reading 0 0),
   (4 / 20, reading 0 0), (5 / 20, reading 0 0), (6 / 20, reading 0 0),
   (7 / 20, reading 0 0), (8 / 20, reading 0 0), (9 / 20, reading 0 0)]

/-- A state no run produces: stored time 1 with `use_enc` never assigned. -/
def corrupted : MotionModel Vec6 :=
  { MotionModel.construct vecOps with prev_time_ := 1 }

/-- An encoder-fused predictor with wheelbase 0.5 whose one update, at the origin, was
stamped 0. -/
def startedAtZero : MotionModel Vec6 :=
  { MotionModel.construct vecOps with
      prev_time_ := 0, prevTwc_ := translation 0 0 0,
      enc_wheelbase := some (1 / 2), use_enc := some true }

/-- A visual-only predictor whose one update, at the origin, was stamped 0. -/
def startedAtZeroVisual : MotionModel Vec6 :=
  { MotionModel.construct vecOps with
      prev_time_ := 0, prevTwc_ := translation 0 0 0,
      enc_wheelbase := some (1 / 2), use_enc := some false }

/-- The predictor `startedAtZeroVisual` after a second update, one metre ahead, stamped
0 again: the twist is a quotient by `dt = 0`. -/
def stalled : MotionModel Vec6 :=
  { startedAtZeroVisual with prevTwc_ := translation 0 0 1, log_relT_ := Vec6.nonfinite }

/-! ## Theorems -/

/-! ### Arithmetic of `F64` -/

namespace F64

@[simp] theorem zero_def : (0 : F64) = fin 0 := rfl

@[simp] theorem one_def : (1 : F64) = fin 1 := rfl

@[simp] theorem ofNat_def (n : ℕ) [n.AtLeastTwo] :
    (no_index (OfNat.ofNat n) : F64) = fin (OfNat.ofNat n) := rfl

@[simp] theorem add_fin (a b : ℚ) : (fin a).add (fin b) = fin (a + b) := rfl

@[simp] theorem add_nonfinite (a : F64) : a.add nonfinite = nonfinite := by
  cases a <;> rfl

@[simp] theorem nonfinite_add (a : F64) : nonfinite.add a = nonfinite := rfl

@[simp] theorem neg_fin (a : ℚ) : (fin a).neg = fin (-a) := rfl

@[simp] theorem mulq_fin (a k : ℚ) : (fin a).mulq k = fin (a * k) := rfl

@[simp] theorem mulq_nonfinite (k : ℚ) : nonfinite.mulq k = nonfinite := rfl

@[simp] theorem divq_zero (a : F64) : a.divq 0 = nonfinite := by
  simp [divq]

theorem divq_fin (a k : ℚ) (hk : k ≠ 0) : (fin a).divq k = fin (a / k) := by
  simp [divq, hk]

theorem divq_mulq (a : F64) (k : ℚ) (hk : k ≠ 0) : (a.divq k).mulq k = a := by
  cases a with
  | fin q => simp [divq, hk, mulq, div_mul_cancel₀ _ hk]
  | nonfinite => simp [divq, hk, mulq]

@[simp] theorem absLe_fin (a prec : ℚ) : (fin a).absLe prec = decide (|a| ≤ prec) := rfl

@[simp] theorem absLe_nonfinite (prec : ℚ) : nonfinite.absLe prec = false := rfl

end F64


/-! ### The branches of `updateMotionModel` and `applyMotionModel` -/

theorem update_of_uninit {P : Type} (G : SE3Ops P) (W : WheelEncoder) (m : MotionModel P)
    (Twc : P) (t : ℚ) (h : m.prev_time_ < 0) :
    updateMotionModel G W m Twc t =
      .ok { m with prev_time_ := t, prevTwc_ := Twc, prev_enc_left_ := m.enc_left,
                   prev_enc_right_ := m.enc_right, enc_wheelbase := some W.getWheelBase,
                   use_enc := some W.useWheelEncoder } := by
  simp [updateMotionModel, h]

theorem update_of_regress {P : Type} (G : SE3Ops P) (W : WheelEncoder) (m : MotionModel P)
    (Twc : P) (t : ℚ) (h0 : 0 ≤ m.prev_time_) (ht : t < m.prev_time_) :
    updateMotionModel G W m Twc t = .error .fatalExit := by
  have h0' : ¬ m.prev_time_ < 0 := not_lt.mpr h0
  simp [updateMotionModel, h0', ht]

theorem update_of_unset {P : Type} (G : SE3Ops P) (W : WheelEncoder) (m : MotionModel P)
    (Twc : P) (t : ℚ) (h0 : 0 ≤ m.prev_time_) (ht : m.prev_time_ ≤ t)
    (hu : m.use_enc = none) :
    updateMotionModel G W m Twc t = .error .uninitRead := by
  have h0' : ¬ m.prev_time_ < 0 := not_lt.mpr h0
  have ht' : ¬ t < m.prev_time_ := not_lt.mpr ht
  simp [updateMotionModel, h0', ht', hu]

theorem update_of_enc {P : Type} (G : SE3Ops P) (W : WheelEncoder) (m : MotionModel P)
    (Twc : P) (t : ℚ) (h0 : 0 ≤ m.prev_time_) (ht : m.prev_time_ ≤ t)
    (hu : m.use_enc = some true) :
    updateMotionModel G W m Twc t =
      .ok { m with prev_time_ := t, prevTwc_ := Twc, prev_enc_left_ := m.enc_left,
                   prev_enc_right_ := m.enc_right } := by
  have h0' : ¬ m.prev_time_ < 0 := not_lt.mpr h0
  have ht' : ¬ t < m.prev_time_ := not_lt.mpr ht
  simp [updateMotionModel, h0', ht', hu]

theorem update_of_vis {P : Type} (G : SE3Ops P) (W : WheelEncoder) (m : MotionModel P)
    (Twc : P) (t : ℚ) (h0 : 0 ≤ m.prev_time_) (ht : m.prev_time_ ≤ t)
    (hu : m.use_enc = some false) :
    updateMotionModel G W m Twc t =
      .ok { m with prev_time_ := t, prevTwc_ := Twc, prev_enc_left_ := m.enc_left,
                   prev_enc_right_ := m.enc_right,
                   log_relT_ := (G.log (G.mul (G.inverse m.prevTwc_) Twc)).sdiv
                     (t - m.prev_time_) } := by
  have h0' : ¬ m.prev_time_ < 0 := not_lt.mpr h0
  have ht' : ¬ t < m.prev_time_ := not_lt.mpr ht
  simp [updateMotionModel, h0', ht', hu]

theorem reconcile_prev_time {P : Type} (G : SE3Ops P) (m : MotionModel P) (Twc : P) :
    (reconcile G m Twc).prev_time_ = m.prev_time_ := by
  unfold reconcile; split_ifs <;> rfl

theorem reconcile_log_relT {P : Type} (G : SE3Ops P) (m : MotionModel P) (Twc : P) :
    (reconcile G m Twc).log_relT_ = m.log_relT_ := by
  unfold reconcile; split_ifs <;> rfl

theorem reconcile_use_enc {P : Type} (G : SE3Ops P) (m : MotionModel P) (Twc : P) :
    (reconcile G m Twc).use_enc = m.use_enc := by
  unfold reconcile; split_ifs <;> rfl

theorem reconcile_enc_wheelbase {P : Type} (G : SE3Ops P) (m : MotionModel P) (Twc : P) :
    (reconcile G m Twc).enc_wheelbase = m.enc_wheelbase := by
  unfold reconcile; split_ifs <;> rfl

theorem reconcile_prev_enc_left {P : Type} (G : SE3Ops P) (m : MotionModel P) (Twc : P) :
    (reconcile G m Twc).prev_enc_left_ = m.prev_enc_left_ := by
  unfold reconcile; split_ifs <;> rfl

theorem reconcile_prev_enc_right {P : Type} (G : SE3Ops P) (m : MotionModel P) (Twc : P) :
    (reconcile G m Twc).prev_enc_right_ = m.prev_enc_right_ := by
  unfold reconcile; split_ifs <;> rfl

theorem reconcile_of_far {P : Type} (G : SE3Ops P) (m : MotionModel P) (Twc : P)
    (hz : (G.log (G.mul Twc (G.inverse m.prevTwc_))).isZero (1 / 100000) = false) :
    reconcile G m Twc = { m with prevTwc_ := Twc } := by
  unfold reconcile; rw [hz]; rfl

theorem reconcile_of_near {P : Type} (G : SE3Ops P) (m : MotionModel P) (Twc : P)
    (hz : (G.log (G.mul Twc (G.inverse m.prevTwc_))).isZero (1 / 100000) = true) :
    reconcile G m Twc = m := by
  unfold reconcile; rw [hz]; rfl

theorem apply_of_uninit {P : Type} (G : SE3Ops P) (m : MotionModel P) (Twc : P) (t : ℚ)
    (e : EncoderData) (h : m.prev_time_ ≤ 0) :
    applyMotionModel G m Twc t e = .ok (m, Twc) := by
  have h' : ¬ 0 < m.prev_time_ := not_lt.mpr h
  simp [applyMotionModel, h']

theorem apply_of_unset {P : Type} (G : SE3Ops P) (m : MotionModel P) (Twc : P) (t : ℚ)
    (e : EncoderData) (h : 0 < m.prev_time_) (hu : m.use_enc = none) :
    applyMotionModel G m Twc t e = .error .uninitRead := by
  have hu' := (reconcile_use_enc G m Twc).trans hu
  unfold applyMotionModel
  simp only [h, if_true]
  split <;> simp_all

theorem apply_of_vis {P : Type} (G : SE3Ops P) (m : MotionModel P) (Twc : P) (t : ℚ)
    (e : EncoderData) (h : 0 < m.prev_time_) (hu : m.use_enc = some false) :
    applyMotionModel G m Twc t e =
      .ok (reconcile G m Twc, G.mul Twc (G.exp (m.log_relT_.smul (t - m.prev_time_)))) := by
  have hu' := (reconcile_use_enc G m Twc).trans hu
  unfold applyMotionModel
  simp only [h, if_true]
  split
  · simp_all
  · simp_all
  · simp only [reconcile_prev_time, reconcile_log_relT]

theorem apply_of_enc {P : Type} (G : SE3Ops P) (m : MotionModel P) (Twc : P) (t : ℚ)
    (e : EncoderData) (wb : ℚ) (h : 0 < m.prev_time_) (hu : m.use_enc = some true)
    (hw : m.enc_wheelbase = some wb) :
    applyMotionModel G m Twc t e =
      .ok ({ reconcile G m Twc with
              enc_left := e.left_wheel_travel,
              enc_right := e.right_wheel_travel,
              log_relT_ :=
                ⟨0, 0,
                 F64.divq (.fin ((e.left_wheel_travel - m.prev_enc_left_ +
                    (e.right_wheel_travel - m.prev_enc_right_)) / 2)) (t - m.prev_time_),
                 0,
                 F64.divq (.fin ((e.left_wheel_travel - m.prev_enc_left_ -
                    (e.right_wheel_travel - m.prev_enc_right_)) / wb)) (t - m.prev_time_),
                 0⟩ },
           G.mul Twc (G.exp (Vec6.smul
             ⟨0, 0,
              F64.divq (.fin ((e.left_wheel_travel - m.prev_enc_left_ +
                 (e.right_wheel_travel - m.prev_enc_right_)) / 2)) (t - m.prev_time_),
              0,
              F64.divq (.fin ((e.left_wheel_travel - m.prev_enc_left_ -
                 (e.right_wheel_travel - m.prev_enc_right_)) / wb)) (t - m.prev_time_),
              0⟩ (t - m.prev_time_)))) := by
  have hu' := (reconcile_use_enc G m Twc).trans hu
  have hw' := (reconcile_enc_wheelbase G m Twc).trans hw
  unfold applyMotionModel
  simp only [h, if_true]
  split
  · simp_all
  · simp only [hw', reconcile_prev_time, reconcile_prev_enc_left, reconcile_prev_enc_right]
  · simp_all

theorem update_ok_stores {P : Type} (G : SE3Ops P) (W : WheelEncoder) (m m' : MotionModel P)
    (Twc : P) (t : ℚ) (h : updateMotionModel G W m Twc t = .ok m') :
    m'.prevTwc_ = Twc ∧ m'.prev_time_ = t := by
  rcases lt_or_le m.prev_time_ 0 with h0 | h0
  · rw [update_of_uninit G W m Twc t h0] at h
    cases h; exact ⟨rfl, rfl⟩
  · rcases lt_or_le t m.prev_time_ with ht | ht
    · rw [update_of_regress G W m Twc t h0 ht] at h; cases h
    · cases hu : m.use_enc with
      | none => rw [update_of_unset G W m Twc t h0 ht hu] at h; cases h
      | some ue =>
        cases ue
        · rw [update_of_vis G W m Twc t h0 ht hu] at h; cases h; exact ⟨rfl, rfl⟩
        · rw [update_of_enc G W m Twc t h0 ht hu] at h; cases h; exact ⟨rfl, rfl⟩

theorem update_returns {P : Type} (G : SE3Ops P) (W : WheelEncoder) (m : MotionModel P)
    (Twc : P) (t : ℚ) (h : m.prev_time_ < 0 ∨ (m.prev_time_ ≤ t ∧ m.use_enc ≠ none)) :
    ∃ m', updateMotionModel G W m Twc t = .ok m' := by
  rcases h with h | ⟨h1, h2⟩
  · exact ⟨_, update_of_uninit G W m Twc t h⟩
  · rcases lt_or_le m.prev_time_ 0 with h0 | h0
    · exact ⟨_, update_of_uninit G W m Twc t h0⟩
    · cases hu : m.use_enc with
      | none => exact absurd hu h2
      | some ue =>
        cases ue
        · exact ⟨_, update_of_vis G W m Twc t h0 h1 hu⟩
        · exact ⟨_, update_of_enc G W m Twc t h0 h1 hu⟩

/-- C1: whenever `updateMotionModel(Twc, t)` returns, the resulting state has
`prevTwc_ = Twc` and `prev_time_ = t`; and it does return from every uninitialised
state and from every state with `use_enc` assigned and `prev_time_ ≤ t`. -/
theorem update_stores_pose_and_time {P : Type} (G : SE3Ops P) (W : WheelEncoder)
    (m : MotionModel P) (Twc : P) (t : ℚ) :
    (∀ m', updateMotionModel G W m Twc t = .ok m' → m'.prevTwc_ = Twc ∧ m'.prev_time_ = t) ∧
    ((m.prev_time_ < 0 ∨ (m.prev_time_ ≤ t ∧ m.use_enc ≠ none)) →
      ∃ m', updateMotionModel G W m Twc t = .ok m') :=
  ⟨fun m' h => update_ok_stores G W m m' Twc t h, update_returns G W m Twc t⟩

/-- C1, evaluated: the first update of a fresh predictor returns and stores the pose
and the time it was given. -/
theorem update_stores_pose_and_time_witness :
    ∃ m', updateMotionModel vecOps visualOnly (MotionModel.construct vecOps)
        (translation 1 2 3) 7 = .ok m' ∧
      m'.prevTwc_ = translation 1 2 3 ∧ m'.prev_time_ = 7 := by
  have key := update_stores_pose_and_time vecOps visualOnly (MotionModel.construct vecOps)
    (translation 1 2 3) 7
  obtain ⟨m', hm'⟩ := key.2 (Or.inl (by norm_num [MotionModel.construct]))
  exact ⟨m', hm', key.1 m' hm'⟩

/-! ### Reachable states -/

theorem apply_prev_time {P : Type} (G : SE3Ops P) (m m' : MotionModel P) (Twc Twc' : P)
    (t : ℚ) (e : EncoderData) (h : applyMotionModel G m Twc t e = .ok (m', Twc')) :
    m'.prev_time_ = m.prev_time_ := by
  rcases le_or_lt m.prev_time_ 0 with h0 | h0
  · rw [apply_of_uninit G m Twc t e h0] at h
    cases h; rfl
  · cases hu : m.use_enc with
    | none => rw [apply_of_unset G m Twc t e h0 hu] at h; cases h
    | some ue =>
      cases ue
      · rw [apply_of_vis G m Twc t e h0 hu] at h
        cases h; exact reconcile_prev_time G m Twc
      · cases hw : m.enc_wheelbase with
        | none =>
          have hu' := (reconcile_use_enc G m Twc).trans hu
          have hw' := (reconcile_enc_wheelbase G m Twc).trans hw
          unfold applyMotionModel at h
          simp only [h0, if_true] at h
          split at h
          · cases h
          · simp [hw'] at h
          · simp_all
        | some wb =>
          rw [apply_of_enc G m Twc t e wb h0 hu hw] at h
          cases h; exact reconcile_prev_time G m Twc

theorem Vec6.zero_smul (k : ℚ) : Vec6.Zero.smul k = Vec6.Zero := by
  simp [Vec6.smul, Vec6.Zero]

theorem Vec6.zero_sdiv (k : ℚ) (hk : k ≠ 0) : Vec6.Zero.sdiv k = Vec6.Zero := by
  simp [Vec6.sdiv, Vec6.Zero, F64.divq, hk]

theorem Vec6.sdiv_smul (v : Vec6) (k : ℚ) (hk : k ≠ 0) : (v.sdiv k).smul k = v := by
  simp [Vec6.sdiv, Vec6.smul, F64.divq_mulq _ _ hk]

theorem Vec6.sdiv_zero (v : Vec6) : v.sdiv 0 = Vec6.nonfinite := by
  simp [Vec6.sdiv, Vec6.nonfinite]

theorem F64.add_zero (a : F64) : a.add (fin 0) = a := by
  cases a <;> simp [F64.add]

theorem vecOps_mul_identity (a : Vec6) : vecOps.mul a vecOps.identity = a := by
  simp [vecOps, Vec6.Zero, F64.add_zero]

/-- The state `cruising` is reached by two updates of a fresh visual-only predictor. -/
theorem cruising_reachable : Reachable vecOps visualOnly cruising := by
  have h1 : updateMotionModel vecOps visualOnly (MotionModel.construct vecOps)
      (translation 0 0 0) 1 =
      .ok { MotionModel.construct vecOps with
              prev_time_ := 1, prevTwc_ := translation 0 0 0,
              enc_wheelbase := some (1 / 2), use_enc := some false } :=
    update_of_uninit vecOps visualOnly _ _ _ (by norm_num [MotionModel.construct])
  have h2 : updateMotionModel vecOps visualOnly
      { MotionModel.construct vecOps with
          prev_time_ := 1, prevTwc_ := translation 0 0 0,
          enc_wheelbase := some (1 / 2), use_enc := some false }
      (translation 0 0 1) 2 = .ok cruising := by
    rw [update_of_vis vecOps visualOnly _ _ _ (by norm_num) (by norm_num) rfl]
    simp [cruising, MotionModel.construct, vecOps, translation, Vec6.sdiv, F64.divq]
    norm_num
  exact Reachable.update (Reachable.update Reachable.construct h1) h2

/-- C3, as stated, fails: the cruising predictor is handed a pose one micrometre away
from its anchor; the pose differs from the anchor, yet the call leaves the anchor where
it was. -/
theorem apply_small_jump_keeps_anchor :
    0 < cruising.prev_time_ ∧ cruising.use_enc = some false ∧
    translation (1 / 1000000) 0 1 ≠ cruising.prevTwc_ ∧
    ∃ m', applyMotionModel vecOps cruising (translation (1 / 1000000) 0 1) 3 (reading 0 0) =
        .ok (m', translation (1 / 1000000) 0 2) ∧
      m'.prevTwc_ = translation 0 0 1 ∧ m'.prevTwc_ ≠ translation (1 / 1000000) 0 1 := by
  refine ⟨by norm_num [cruising], rfl, by simp [cruising, translation], ?_⟩
  have hrec : reconcile vecOps cruising (translation (1 / 1000000) 0 1) = cruising :=
    reconcile_of_near vecOps cruising _
      (by simp [vecOps, cruising, translation, Vec6.isZero]; norm_num [abs_le])
  refine ⟨cruising, ?_, rfl, by simp [cruising, translation]⟩
  rw [apply_of_vis vecOps cruising _ 3 (reading 0 0) (by norm_num [cruising]) rfl, hrec]
  simp [cruising, vecOps, translation, Vec6.smul]
  norm_num

/-- C3, amended: for every predictor with `prev_time_ > 0` and `use_enc = false`, with
stored twist ξ, and every pose `T'`, one call `applyMotionModel(T', t, enc)` returns
`T' · exp(ξ · (t − prev_time_))`; it leaves the anchor equal to `T'` when
`log(T' · prevTwc_⁻¹)` has a coefficient larger than 1e-5 in absolute value, and leaves
the anchor unchanged otherwise.  Twist and stored time are unchanged. -/
theorem apply_reconciles_anchor {P : Type} (G : SE3Ops P) (m : MotionModel P) (T' : P)
    (t : ℚ) (enc : EncoderData) (h : 0 < m.prev_time_) (hu : m.use_enc = some false) :
    ∃ m', applyMotionModel G m T' t enc =
        .ok (m', G.mul T' (G.exp (m.log_relT_.smul (t - m.prev_time_)))) ∧
      ((G.log (G.mul T' (G.inverse m.prevTwc_))).isZero (1 / 100000) = false →
        m'.prevTwc_ = T') ∧
      ((G.log (G.mul T' (G.inverse m.prevTwc_))).isZero (1 / 100000) = true →
        m'.prevTwc_ = m.prevTwc_) ∧
      m'.log_relT_ = m.log_relT_ ∧ m'.prev_time_ = m.prev_time_ := by
  refine ⟨reconcile G m T', apply_of_vis G m T' t enc h hu, ?_, ?_,
    reconcile_log_relT G m T', reconcile_prev_time G m T'⟩
  · intro hz; rw [reconcile_of_far G m T' hz]
  · intro hz; rw [reconcile_of_near G m T' hz]

/-- C3, amended, evaluated: a one-metre sideways jump of the cruising predictor moves
the anchor to the jumped pose and the prediction starts from it. -/
theorem apply_reconciles_anchor_witness :
    ∃ m', applyMotionModel vecOps cruising (translation 1 0 1) 3 (reading 0 0) =
        .ok (m', translation 1 0 2) ∧ m'.prevTwc_ = translation 1 0 1 := by
  obtain ⟨m', h1, h2, -, -, -⟩ := apply_reconciles_anchor vecOps cruising
    (translation 1 0 1) 3 (reading 0 0) (by norm_num [cruising]) rfl
  refine ⟨m', ?_, h2 ?_⟩
  · rw [h1]; simp [cruising, vecOps, translation, Vec6.smul]
    norm_num
  · simp [vecOps, cruising, translation, Vec6.isZero]
    norm_num [abs_le]

theorem startedAtZero_reachable : Reachable vecOps encoderFused startedAtZero :=
  Reachable.update Reachable.construct
    (update_of_uninit vecOps encoderFused (MotionModel.construct vecOps) (translation 0 0 0) 0
      (by norm_num [MotionModel.construct]))

theorem startedAtZeroVisual_reachable :
    Reachable vecOps visualOnly startedAtZeroVisual :=
  Reachable.update Reachable.construct
    (update_of_uninit vecOps visualOnly (MotionModel.construct vecOps) (translation 0 0 0) 0
      (by norm_num [MotionModel.construct]))

/-- C4, as stated, fails: an encoder-fused predictor whose first update was stamped 0 is
initialised, and at time 0.1 with `dL = dR = 0.1` (so `dt = 0.1 ≠ 0`) `applyMotionModel`
stores no twist and does not advance the pose, where the claim has `ξ = [0,0,1,0,0,0]`
and the pose 0.1 ahead. -/
theorem apply_at_stamp_zero_stores_no_twist :
    Reachable vecOps encoderFused startedAtZero ∧
    startedAtZero.prev_time_ = 0 ∧ startedAtZero.use_enc = some true ∧
    applyMotionModel vecOps startedAtZero (translation 0 0 0) (1 / 10)
        (reading (1 / 10) (1 / 10)) = .ok (startedAtZero, translation 0 0 0) ∧
    startedAtZero.log_relT_ = Vec6.Zero ∧ Vec6.Zero ≠ ⟨0, 0, 1, 0, 0, 0⟩ ∧
    translation 0 0 0 ≠ translation 0 0 (1 / 10) := by
  refine ⟨startedAtZero_reachable, rfl, rfl,
    apply_of_uninit vecOps _ _ _ _ (by norm_num [startedAtZero]), rfl, ?_, ?_⟩
  · simp [Vec6.Zero]
  · simp [translation]

/-- C4, amended: for every predictor with `prev_time_ > 0`, `use_enc = true` and
wheelbase `wb`, every pose `Twc`, time `t` and reading `enc` with
`dt = t − prev_time_ ≠ 0`, `dL = enc.left_wheel_travel − prev_enc_left_`,
`dR = enc.right_wheel_travel − prev_enc_right_`: `applyMotionModel` returns, stores the
twist `ξ = [0, 0, (dL + dR)/(2·dt), 0, (dL − dR)/(wb·dt), 0]`, all of whose components
are finite, and replaces `Twc` by `Twc · exp(ξ · dt)`. -/
theorem apply_encoder_twist {P : Type} (G : SE3Ops P) (m : MotionModel P) (Twc : P)
    (t : ℚ) (enc : EncoderData) (wb : ℚ) (h : 0 < m.prev_time_)
    (hu : m.use_enc = some true) (hw : m.enc_wheelbase = some wb)
    (hdt : t - m.prev_time_ ≠ 0) :
    ∃ m', applyMotionModel G m Twc t enc =
        .ok (m', G.mul Twc (G.exp (m'.log_relT_.smul (t - m.prev_time_)))) ∧
      m'.log_relT_ =
        ⟨0, 0,
         .fin ((enc.left_wheel_travel - m.prev_enc_left_ +
            (enc.right_wheel_travel - m.prev_enc_right_)) / (2 * (t - m.prev_time_))),
         0,
         .fin ((enc.left_wheel_travel - m.prev_enc_left_ -
            (enc.right_wheel_travel - m.prev_enc_right_)) / (wb * (t - m.prev_time_))),
         0⟩ := by
  refine ⟨_, apply_of_enc G m Twc t enc wb h hu hw, ?_⟩
  simp only [F64.divq_fin _ _ hdt, div_div]

/-- C4, amended, evaluated on the two scenarios of the specification (wheelbase 0.5,
dt 0.1): `dL = dR = 0.1` stores `ξ = [0,0,1,0,0,0]` and advances the pose 0.1 along z;
`dL = 0.1`, `dR = −0.1` stores angular component 4 and turns the pose by 0.4. -/
theorem apply_encoder_twist_witness :
    (∃ m', applyMotionModel vecOps rolling (translation 0 0 0) (11 / 10)
        (reading (1 / 10) (1 / 10)) = .ok (m', translation 0 0 (1 / 10)) ∧
      m'.log_relT_ = ⟨0, 0, 1, 0, 0, 0⟩) ∧
    (∃ m', applyMotionModel vecOps rolling (translation 0 0 0) (11 / 10)
        (reading (1 / 10) (-1 / 10)) = .ok (m', ⟨0, 0, 0, 0, .fin (4 / 10), 0⟩) ∧
      m'.log_relT_ = ⟨0, 0, 0, 0, 4, 0⟩) := by
  constructor
  · obtain ⟨m', h1, h2⟩ := apply_encoder_twist vecOps rolling (translation 0 0 0) (11 / 10)
      (reading (1 / 10) (1 / 10)) (1 / 2) (by norm_num [rolling]) rfl rfl
      (by norm_num [rolling])
    have h3 : m'.log_relT_ = ⟨0, 0, 1, 0, 0, 0⟩ := by
      rw [h2]; simp [rolling, reading]; norm_num
    refine ⟨m', ?_, h3⟩
    rw [h1, h3]; simp [rolling, vecOps, translation, Vec6.smul]; norm_num
  · obtain ⟨m', h1, h2⟩ := apply_encoder_twist vecOps rolling (translation 0 0 0) (11 / 10)
      (reading (1 / 10) (-1 / 10)) (1 / 2) (by norm_num [rolling]) rfl rfl
      (by norm_num [rolling])
    have h3 : m'.log_relT_ = ⟨0, 0, 0, 0, 4, 0⟩ := by
      rw [h2]; simp [rolling, reading]; norm_num
    refine ⟨m', ?_, h3⟩
    rw [h1, h3]; simp [rolling, vecOps, translation, Vec6.smul]; norm_num

/-- C5, as stated, fails: a predictor whose first update carried the time −5 accepts a
second update at the earlier time −7 and returns with `prev_time_ = −7`. -/
theorem update_regression_below_zero_returns :
    ∃ m1 m2, updateMotionModel vecOps visualOnly (MotionModel.construct vecOps)
        (translation 0 0 0) (-5) = .ok m1 ∧
      m1.prev_time_ = -5 ∧
      updateMotionModel vecOps visualOnly m1 (translation 0 0 0) (-7) = .ok m2 ∧
      m2.prev_time_ = -7 ∧ m2.prev_time_ < m1.prev_time_ := by
  refine ⟨_, _, update_of_uninit vecOps visualOnly _ _ _ (by norm_num [MotionModel.construct]),
    rfl, update_of_uninit vecOps visualOnly _ _ _ (by norm_num), rfl, by norm_num⟩

/-- C5, amended: for every predictor whose stored time is not negative and every
`t_new < prev_time_`, `updateMotionModel(Twc, t_new)` ends in `exit(-1)` instead of
returning; consequently `prev_time_` never decreases across a returning update from
such a state. -/
theorem update_time_regression_fatal {P : Type} (G : SE3Ops P) (W : WheelEncoder)
    (m : MotionModel P) (Twc : P) (t : ℚ) (h0 : 0 ≤ m.prev_time_) :
    (t < m.prev_time_ → updateMotionModel G W m Twc t = .error .fatalExit) ∧
    (∀ m', updateMotionModel G W m Twc t = .ok m' → m.prev_time_ ≤ m'.prev_time_) := by
  refine ⟨update_of_regress G W m Twc t h0, ?_⟩
  intro m' h
  rcases lt_or_le t m.prev_time_ with ht | ht
  · rw [update_of_regress G W m Twc t h0 ht] at h; cases h
  · rw [(update_ok_stores G W m m' Twc t h).2]; exact ht

/-- C5, amended, evaluated: the cruising predictor (last update at time 2) aborts on a
frame stamped 1. -/
theorem update_time_regression_fatal_witness :
    0 ≤ cruising.prev_time_ ∧
    updateMotionModel vecOps visualOnly cruising (translation 0 0 1) 1 =
      .error .fatalExit :=
  ⟨by norm_num [cruising],
   (update_time_regression_fatal vecOps visualOnly cruising (translation 0 0 1) 1
      (by norm_num [cruising])).1 (by norm_num [cruising])⟩

/-- The state `rolling` is reached by the first update of a fresh encoder-fused
predictor. -/
theorem rolling_reachable : Reachable vecOps encoderFused rolling := by
  have h1 : updateMotionModel vecOps encoderFused (MotionModel.construct vecOps)
      (translation 0 0 0) 1 = .ok rolling := by
    rw [update_of_uninit vecOps encoderFused _ _ _ (by norm_num [MotionModel.construct])]
    rfl
  exact Reachable.update Reachable.construct h1

theorem rolling_apply :
    applyMotionModel vecOps rolling (translation 0 0 0) 2 (reading 5 5) =
      .ok (rolled, translation 0 0 5) := by
  have hrec : reconcile vecOps rolling (translation 0 0 0) = rolling :=
    reconcile_of_near vecOps rolling _
      (by simp [vecOps, rolling, translation, Vec6.isZero])
  rw [apply_of_enc vecOps rolling _ 2 (reading 5 5) (1 / 2) (by norm_num [rolling]) rfl rfl,
    hrec]
  simp [rolled, rolling, reading, vecOps, translation, Vec6.smul, F64.divq]
  norm_num

/-- The state `rolled` is reachable in encoder-fused mode. -/
theorem rolled_reachable : Reachable vecOps encoderFused rolled :=
  Reachable.apply rolling_reachable rolling_apply

/-- C6, evaluated at the failing input: `rolled` is reachable in encoder-fused mode, and
the same two calls return the pose 1 m ahead after `reset()` but 6 m ahead on a freshly
constructed predictor. -/
theorem reset_differs_from_fresh_with_encoder :
    Reachable vecOps encoderFused rolled ∧
    posesReturned vecOps encoderFused (reset rolled) restartCalls =
      .ok [translation 0 0 1] ∧
    posesReturned vecOps encoderFused (MotionModel.construct vecOps) restartCalls =
      .ok [translation 0 0 6] := by
  refine ⟨rolled_reachable, ?_, ?_⟩
  · simp [posesReturned, restartCalls, Call.exec, updateMotionModel, applyMotionModel,
      reconcile, reset, rolled, rolling, encoderFused, reading, vecOps, translation,
      Vec6.smul, Vec6.isZero, Vec6.Zero, F64.divq]
    norm_num
  · simp [posesReturned, restartCalls, Call.exec, updateMotionModel, applyMotionModel,
      reconcile, MotionModel.construct, encoderFused, reading, vecOps, translation,
      Vec6.smul, Vec6.isZero, Vec6.Zero, F64.divq]
    norm_num

/-! ### Visual-only mode: a reset predictor behaves like a fresh one -/

theorem reconcile_congr {P : Type} (G : SE3Ops P) (a b : MotionModel P) (Twc : P)
    (h : a.prevTwc_ = b.prevTwc_) :
    (reconcile G a Twc).prevTwc_ = (reconcile G b Twc).prevTwc_ := by
  unfold reconcile
  rw [h]
  split_ifs
  · rfl
  · exact h

theorem exec_apply_ok {P : Type} (G : SE3Ops P) (W : WheelEncoder) {m m' : MotionModel P}
    {Twc Twc' : P} {t : ℚ} {e : EncoderData}
    (h : applyMotionModel G m Twc t e = .ok (m', Twc')) :
    (Call.apply Twc t e).exec G W m = .ok (m', some Twc') := by
  simp only [Call.exec, h]

theorem exec_update_ok {P : Type} (G : SE3Ops P) (W : WheelEncoder) {m m' : MotionModel P}
    {Twc : P} {t : ℚ} (h : updateMotionModel G W m Twc t = .ok m') :
    (Call.update Twc t).exec G W m = .ok (m', none) := by
  simp only [Call.exec, h]

theorem exec_update_error {P : Type} (G : SE3Ops P) (W : WheelEncoder) {m : MotionModel P}
    {Twc : P} {t : ℚ} {f : Fault} (h : updateMotionModel G W m Twc t = .error f) :
    (Call.update Twc t).exec G W m = .error f := by
  simp only [Call.exec, h]

theorem VisEquiv.exec {P : Type} (G : SE3Ops P) (W : WheelEncoder)
    (hW : W.useWheelEncoder = false) {a b : MotionModel P} (h : VisEquiv a b)
    (c : Call P) :
    (∃ f, c.exec G W a = .error f ∧ c.exec G W b = .error f) ∨
    (∃ a' b' o, c.exec G W a = .ok (a', o) ∧ c.exec G W b = .ok (b', o) ∧
      VisEquiv a' b') := by
  obtain ⟨ht, hl, hrest⟩ := h
  cases c with
  | apply Twc t e =>
    right
    rcases le_or_lt a.prev_time_ 0 with h0 | h0
    · exact ⟨a, b, some Twc, exec_apply_ok G W (apply_of_uninit G a Twc t e h0),
        exec_apply_ok G W (apply_of_uninit G b Twc t e (ht ▸ h0)), ht, hl, hrest⟩
    · obtain ⟨hp, hua, hub⟩ := hrest h0.le
      have hb := apply_of_vis G b Twc t e (ht ▸ h0) hub
      rw [← ht, ← hl] at hb
      refine ⟨_, _, _, exec_apply_ok G W (apply_of_vis G a Twc t e h0 hua),
        exec_apply_ok G W hb, ?_, ?_, fun _ => ⟨reconcile_congr G a b Twc hp, ?_, ?_⟩⟩
      · rw [reconcile_prev_time, reconcile_prev_time, ht]
      · rw [reconcile_log_relT, reconcile_log_relT, hl]
      · rw [reconcile_use_enc, hua]
      · rw [reconcile_use_enc, hub]
  | update Twc t =>
    rcases lt_or_le a.prev_time_ 0 with h0 | h0
    · right
      refine ⟨_, _, none, exec_update_ok G W (update_of_uninit G W a Twc t h0),
        exec_update_ok G W (update_of_uninit G W b Twc t (ht ▸ h0)), rfl, hl,
        fun _ => ⟨rfl, ?_, ?_⟩⟩
      · show some W.useWheelEncoder = some false
        rw [hW]
      · show some W.useWheelEncoder = some false
        rw [hW]
    · obtain ⟨hp, hua, hub⟩ := hrest h0
      rcases lt_or_le t a.prev_time_ with hlt | hle
      · left
        exact ⟨.fatalExit, exec_update_error G W (update_of_regress G W a Twc t h0 hlt),
          exec_update_error G W (update_of_regress G W b Twc t (ht ▸ h0) (ht ▸ hlt))⟩
      · right
        refine ⟨_, _, none, exec_update_ok G W (update_of_vis G W a Twc t h0 hle hua),
          exec_update_ok G W (update_of_vis G W b Twc t (ht ▸ h0) (ht ▸ hle) hub), rfl, ?_,
          fun _ => ⟨rfl, hua, hub⟩⟩
        show (G.log (G.mul (G.inverse a.prevTwc_) Twc)).sdiv (t - a.prev_time_) =
          (G.log (G.mul (G.inverse b.prevTwc_) Twc)).sdiv (t - b.prev_time_)
        rw [hp, ht]
  | reset =>
    right
    refine ⟨reset a, reset b, none, rfl, rfl, rfl, rfl, fun h0 => ?_⟩
    exact absurd h0 (by norm_num [reset])

theorem VisEquiv.posesReturned_eq {P : Type} (G : SE3Ops P) (W : WheelEncoder)
    (hW : W.useWheelEncoder = false) (cs : List (Call P)) :
    ∀ {a b : MotionModel P}, VisEquiv a b →
      posesReturned G W a cs = posesReturned G W b cs := by
  induction cs with
  | nil => intro a b _; rfl
  | cons c cs ih =>
    intro a b h
    rcases h.exec G W hW c with ⟨f, ha, hb⟩ | ⟨a', b', o, ha, hb, h'⟩
    · simp only [posesReturned, ha, hb]
    · cases o with
      | none => simp only [posesReturned, ha, hb]; exact ih h'
      | some T => simp only [posesReturned, ha, hb, ih h']

/-- In visual-only mode a predictor that was just reset returns, on every sequence of
calls, the poses a freshly constructed predictor returns (and faults where it faults). -/
theorem reset_like_fresh_visual_only {P : Type} (G : SE3Ops P) (W : WheelEncoder)
    (hW : W.useWheelEncoder = false) (s : MotionModel P) (cs : List (Call P)) :
    posesReturned G W (reset s) cs = posesReturned G W (MotionModel.construct G) cs :=
  VisEquiv.posesReturned_eq G W hW cs
    ⟨rfl, rfl, fun h0 => absurd h0 (by norm_num [reset])⟩

/-- C7, evaluated at the failing input: on the first frame of a fresh encoder-fused
predictor, `apply` with reading (5, 5) changes nothing and the following `update`
stores (0, 0) as previous travel. -/
theorem first_frame_misses_reading :
    applyMotionModel vecOps (MotionModel.construct vecOps) (translation 0 0 0) 1
        (reading 5 5) = .ok (MotionModel.construct vecOps, translation 0 0 0) ∧
    ∃ m', updateMotionModel vecOps encoderFused (MotionModel.construct vecOps)
        (translation 0 0 0) 1 = .ok m' ∧
      m'.use_enc = some true ∧ m'.prev_enc_left_ = 0 ∧ m'.prev_enc_right_ = 0 ∧
      m'.prev_enc_left_ ≠ (reading 5 5).left_wheel_travel ∧
      m'.prev_enc_right_ ≠ (reading 5 5).right_wheel_travel := by
  refine ⟨apply_of_uninit vecOps _ _ _ _ (by norm_num [MotionModel.construct]), _,
    update_of_uninit vecOps encoderFused _ _ _ (by norm_num [MotionModel.construct]),
    rfl, rfl, rfl, ?_, ?_⟩ <;> norm_num [MotionModel.construct, reading]

/-- Once `prev_time_ > 0`, a frame `apply(Twc, t, enc)` then `update(Twc', t)` in
encoder-fused mode does leave the travel of `enc` in `prev_enc_left_`,
`prev_enc_right_`. -/
theorem steady_frame_captures_reading {P : Type} (G : SE3Ops P) (W : WheelEncoder)
    (m : MotionModel P) (Twc Twc' : P) (t : ℚ) (enc : EncoderData) (wb : ℚ)
    (h : 0 < m.prev_time_) (ht : m.prev_time_ ≤ t) (hu : m.use_enc = some true)
    (hw : m.enc_wheelbase = some wb) :
    ∃ m1 T1 m2, applyMotionModel G m Twc t enc = .ok (m1, T1) ∧
      updateMotionModel G W m1 Twc' t = .ok m2 ∧
      m2.prev_enc_left_ = enc.left_wheel_travel ∧
      m2.prev_enc_right_ = enc.right_wheel_travel := by
  refine ⟨_, _, _, apply_of_enc G m Twc t enc wb h hu hw,
    update_of_enc G W _ Twc' t ?_ ?_ ?_, rfl, rfl⟩
  · show 0 ≤ (reconcile G m Twc).prev_time_
    rw [reconcile_prev_time]; exact h.le
  · show (reconcile G m Twc).prev_time_ ≤ t
    rw [reconcile_prev_time]; exact ht
  · show (reconcile G m Twc).use_enc = some true
    rw [reconcile_use_enc]; exact hu

/-- C8: for every predictor with `prev_time_ ≥ 0`, every pose `Twc` and every
`t ≥ prev_time_`, `updateMotionModel(Twc, t)` returns; with `use_enc = true` the stored
twist is unchanged, with `use_enc = false` it is overwritten by
`log(prevTwc_⁻¹ · Twc) / (t − prev_time_)`. -/
theorem update_twist_authority {P : Type} (G : SE3Ops P) (W : WheelEncoder)
    (m : MotionModel P) (Twc : P) (t : ℚ) (h0 : 0 ≤ m.prev_time_) (ht : m.prev_time_ ≤ t) :
    (m.use_enc = some true →
      ∃ m', updateMotionModel G W m Twc t = .ok m' ∧ m'.log_relT_ = m.log_relT_) ∧
    (m.use_enc = some false →
      ∃ m', updateMotionModel G W m Twc t = .ok m' ∧
        m'.log_relT_ =
          (G.log (G.mul (G.inverse m.prevTwc_) Twc)).sdiv (t - m.prev_time_)) :=
  ⟨fun hu => ⟨_, update_of_enc G W m Twc t h0 ht hu, rfl⟩,
   fun hu => ⟨_, update_of_vis G W m Twc t h0 ht hu, rfl⟩⟩

/-- C8, evaluated: an update at time 3 with the pose 3 m ahead keeps the encoder twist
of `rolled` and replaces the visual twist of `cruising` by 2 m/s. -/
theorem update_twist_authority_witness :
    (∃ m', updateMotionModel vecOps encoderFused rolled (translation 0 0 3) 3 = .ok m' ∧
      m'.log_relT_ = ⟨0, 0, 5, 0, 0, 0⟩) ∧
    (∃ m', updateMotionModel vecOps visualOnly cruising (translation 0 0 3) 3 = .ok m' ∧
      m'.log_relT_ = ⟨0, 0, 2, 0, 0, 0⟩ ∧ m'.log_relT_ ≠ cruising.log_relT_) := by
  constructor
  · obtain ⟨m', h1, h2⟩ := (update_twist_authority vecOps encoderFused rolled
      (translation 0 0 3) 3 (by norm_num [rolled, rolling]) (by norm_num [rolled, rolling])).1
      rfl
    exact ⟨m', h1, h2⟩
  · obtain ⟨m', h1, h2⟩ := (update_twist_authority vecOps visualOnly cruising
      (translation 0 0 3) 3 (by norm_num [cruising]) (by norm_num [cruising])).2 rfl
    have h3 : m'.log_relT_ = ⟨0, 0, 2, 0, 0, 0⟩ := by
      rw [h2]; simp [cruising, vecOps, translation, Vec6.sdiv, F64.divq]
      norm_num
    refine ⟨m', h1, h3, ?_⟩
    rw [h3]; simp [cruising]

/-- C9: for every predictor whose stored time is not positive, in particular the
uninitialised one with `prev_time_ = −1`, every pose `Twc`, time `t` and reading `enc`,
`applyMotionModel(Twc, t, enc)` returns `Twc` unchanged and changes no field. -/
theorem apply_uninitialised_noop {P : Type} (G : SE3Ops P) (m : MotionModel P) (Twc : P)
    (t : ℚ) (enc : EncoderData) (h : m.prev_time_ ≤ 0) :
    applyMotionModel G m Twc t enc = .ok (m, Twc) :=
  apply_of_uninit G m Twc t enc h

/-- C9, evaluated on a freshly constructed predictor and on one just reset. -/
theorem apply_uninitialised_noop_witness :
    (MotionModel.construct vecOps).prev_time_ = -1 ∧ (reset rolled).prev_time_ = -1 ∧
    applyMotionModel vecOps (MotionModel.construct vecOps) (translation 1 2 3) 4
        (reading 5 6) = .ok (MotionModel.construct vecOps, translation 1 2 3) ∧
    applyMotionModel vecOps (reset rolled) (translation 1 2 3) 4 (reading 5 6) =
      .ok (reset rolled, translation 1 2 3) :=
  ⟨rfl, rfl,
   apply_uninitialised_noop vecOps _ _ _ _ (by norm_num [MotionModel.construct]),
   apply_uninitialised_noop vecOps _ _ _ _ (by norm_num [reset])⟩

/-- C10: for every predictor with `prev_time_ > 0`, `use_enc = true` and a wheelbase,
every reading and every `dt = t − prev_time_ ≠ 0`: the twist stored by
`applyMotionModel` has zero angular component (index 4) if `dL = dR`, zero linear
component (index 2) if `dL = −dR`, and components 0, 1, 3, 5 are zero in every case. -/
theorem apply_encoder_twist_components {P : Type} (G : SE3Ops P) (m : MotionModel P)
    (Twc : P) (t : ℚ) (enc : EncoderData) (wb : ℚ) (h : 0 < m.prev_time_)
    (hu : m.use_enc = some true) (hw : m.enc_wheelbase = some wb)
    (hdt : t - m.prev_time_ ≠ 0) :
    ∃ m' Twc', applyMotionModel G m Twc t enc = .ok (m', Twc') ∧
      (enc.left_wheel_travel - m.prev_enc_left_ =
          enc.right_wheel_travel - m.prev_enc_right_ → m'.log_relT_.x4 = 0) ∧
      (enc.left_wheel_travel - m.prev_enc_left_ =
          -(enc.right_wheel_travel - m.prev_enc_right_) → m'.log_relT_.x2 = 0) ∧
      m'.log_relT_.x0 = 0 ∧ m'.log_relT_.x1 = 0 ∧ m'.log_relT_.x3 = 0 ∧
      m'.log_relT_.x5 = 0 := by
  refine ⟨_, _, apply_of_enc G m Twc t enc wb h hu hw, ?_, ?_, rfl, rfl, rfl, rfl⟩
  · intro hd
    show F64.divq (.fin ((enc.left_wheel_travel - m.prev_enc_left_ -
      (enc.right_wheel_travel - m.prev_enc_right_)) / wb)) (t - m.prev_time_) = 0
    rw [hd, F64.divq_fin _ _ hdt]; simp
  · intro hd
    show F64.divq (.fin ((enc.left_wheel_travel - m.prev_enc_left_ +
      (enc.right_wheel_travel - m.prev_enc_right_)) / 2)) (t - m.prev_time_) = 0
    rw [hd, F64.divq_fin _ _ hdt]; simp

/-- C10, evaluated: from `rolling`, equal wheel advances (3, 3) store a twist without
angular part and opposite advances (3, −3) a twist without linear part. -/
theorem apply_encoder_twist_components_witness :
    (∃ m' Twc', applyMotionModel vecOps rolling (translation 0 0 0) 2 (reading 3 3) =
        .ok (m', Twc') ∧ m'.log_relT_.x4 = 0) ∧
    (∃ m' Twc', applyMotionModel vecOps rolling (translation 0 0 0) 2 (reading 3 (-3)) =
        .ok (m', Twc') ∧ m'.log_relT_.x2 = 0) := by
  constructor
  · obtain ⟨m', Twc', h1, h2, -⟩ := apply_encoder_twist_components vecOps rolling
      (translation 0 0 0) 2 (reading 3 3) (1 / 2) (by norm_num [rolling]) rfl rfl
      (by norm_num [rolling])
    exact ⟨m', Twc', h1, h2 (by norm_num [rolling, reading])⟩
  · obtain ⟨m', Twc', h1, -, h3, -⟩ := apply_encoder_twist_components vecOps rolling
      (translation 0 0 0) 2 (reading 3 (-3)) (1 / 2) (by norm_num [rolling]) rfl rfl
      (by norm_num [rolling])
    exact ⟨m', Twc', h1, h3 (by norm_num [rolling, reading])⟩

/-! ### What a returning call can have done -/

theorem use_enc_cases {P : Type} (m : MotionModel P) :
    m.use_enc = none ∨ m.use_enc = some false ∨ m.use_enc = some true := by
  cases m.use_enc with
  | none => exact Or.inl rfl
  | some b => cases b <;> simp

/-- The three ways `applyMotionModel` returns. -/
theorem apply_ok_cases {P : Type} (G : SE3Ops P) {m m' : MotionModel P} {Twc Twc' : P}
    {t : ℚ} {e : EncoderData} (h : applyMotionModel G m Twc t e = .ok (m', Twc')) :
    (m.prev_time_ ≤ 0 ∧ m' = m ∧ Twc' = Twc) ∨
    (0 < m.prev_time_ ∧ m.use_enc = some false ∧ m' = reconcile G m Twc ∧
      Twc' = G.mul Twc (G.exp (m.log_relT_.smul (t - m.prev_time_)))) ∨
    (0 < m.prev_time_ ∧ m.use_enc = some true ∧ ∃ wb, m.enc_wheelbase = some wb ∧
      m' = { reconcile G m Twc with
              enc_left := e.left_wheel_travel,
              enc_right := e.right_wheel_travel,
              log_relT_ :=
                ⟨0, 0,
                 F64.divq (.fin ((e.left_wheel_travel - m.prev_enc_left_ +
                    (e.right_wheel_travel - m.prev_enc_right_)) / 2)) (t - m.prev_time_),
                 0,
                 F64.divq (.fin ((e.left_wheel_travel - m.prev_enc_left_ -
                    (e.right_wheel_travel - m.prev_enc_right_)) / wb)) (t - m.prev_time_),
                 0⟩ }) := by
  rcases le_or_lt m.prev_time_ 0 with h0 | h0
  · rw [apply_of_uninit G m Twc t e h0] at h
    cases h; exact Or.inl ⟨h0, rfl, rfl⟩
  · cases hu : m.use_enc with
    | none => rw [apply_of_unset G m Twc t e h0 hu] at h; cases h
    | some ue =>
      cases ue
      · rw [apply_of_vis G m Twc t e h0 hu] at h
        cases h; exact Or.inr (Or.inl ⟨h0, rfl, rfl, rfl⟩)
      · cases hw : m.enc_wheelbase with
        | none =>
          have hu' := (reconcile_use_enc G m Twc).trans hu
          have hw' := (reconcile_enc_wheelbase G m Twc).trans hw
          unfold applyMotionModel at h
          simp only [h0, if_true] at h
          split at h
          · cases h
          · simp [hw'] at h
          · simp_all
        | some wb =>
          rw [apply_of_enc G m Twc t e wb h0 hu hw] at h
          cases h; exact Or.inr (Or.inr ⟨h0, rfl, wb, rfl, rfl⟩)

/-- The three ways `updateMotionModel` returns. -/
theorem update_ok_cases {P : Type} (G : SE3Ops P) (W : WheelEncoder) {m m' : MotionModel P}
    {Twc : P} {t : ℚ} (h : updateMotionModel G W m Twc t = .ok m') :
    (m.prev_time_ < 0 ∧
      m' = { m with prev_time_ := t, prevTwc_ := Twc, prev_enc_left_ := m.enc_left,
                    prev_enc_right_ := m.enc_right, enc_wheelbase := some W.getWheelBase,
                    use_enc := some W.useWheelEncoder }) ∨
    (0 ≤ m.prev_time_ ∧ m.prev_time_ ≤ t ∧ m.use_enc = some true ∧
      m' = { m with prev_time_ := t, prevTwc_ := Twc, prev_enc_left_ := m.enc_left,
                    prev_enc_right_ := m.enc_right }) ∨
    (0 ≤ m.prev_time_ ∧ m.prev_time_ ≤ t ∧ m.use_enc = some false ∧
      m' = { m with prev_time_ := t, prevTwc_ := Twc, prev_enc_left_ := m.enc_left,
                    prev_enc_right_ := m.enc_right,
                    log_relT_ := (G.log (G.mul (G.inverse m.prevTwc_) Twc)).sdiv
                      (t - m.prev_time_) }) := by
  rcases lt_or_le m.prev_time_ 0 with h0 | h0
  · rw [update_of_uninit G W m Twc t h0] at h
    cases h; exact Or.inl ⟨h0, rfl⟩
  · rcases lt_or_le t m.prev_time_ with ht | ht
    · rw [update_of_regress G W m Twc t h0 ht] at h; cases h
    · rcases use_enc_cases m with hu | hu | hu
      · rw [update_of_unset G W m Twc t h0 ht hu] at h; cases h
      · rw [update_of_vis G W m Twc t h0 ht hu] at h
        cases h; exact Or.inr (Or.inr ⟨h0, ht, hu, rfl⟩)
      · rw [update_of_enc G W m Twc t h0 ht hu] at h
        cases h; exact Or.inr (Or.inl ⟨h0, ht, hu, rfl⟩)

theorem Vec6.enc_displacement (a b k : ℚ) (hk : k ≠ 0) :
    Vec6.smul ⟨0, 0, F64.divq (.fin a) k, 0, F64.divq (.fin b) k, 0⟩ k =
      ⟨0, 0, .fin a, 0, .fin b, 0⟩ := by
  simp [Vec6.smul, F64.divq_mulq _ _ hk]

/-- The encoder branch of `applyMotionModel`: the pose it returns, the twist it stores
and the members it leaves alone. -/
theorem apply_enc_pose {P : Type} (G : SE3Ops P) (m : MotionModel P) (Twc : P) (t : ℚ)
    (e : EncoderData) (wb : ℚ) (h : 0 < m.prev_time_) (hu : m.use_enc = some true)
    (hw : m.enc_wheelbase = some wb) :
    ∃ m', applyMotionModel G m Twc t e =
        .ok (m', G.mul Twc (G.exp (Vec6.smul
          ⟨0, 0,
           F64.divq (.fin ((e.left_wheel_travel - m.prev_enc_left_ +
              (e.right_wheel_travel - m.prev_enc_right_)) / 2)) (t - m.prev_time_),
           0,
           F64.divq (.fin ((e.left_wheel_travel - m.prev_enc_left_ -
              (e.right_wheel_travel - m.prev_enc_right_)) / wb)) (t - m.prev_time_),
           0⟩ (t - m.prev_time_)))) ∧
      m'.prev_time_ = m.prev_time_ ∧ m'.use_enc = m.use_enc ∧
      m'.enc_wheelbase = m.enc_wheelbase ∧ m'.prev_enc_left_ = m.prev_enc_left_ ∧
      m'.prev_enc_right_ = m.prev_enc_right_ ∧
      m'.log_relT_ =
        ⟨0, 0,
         F64.divq (.fin ((e.left_wheel_travel - m.prev_enc_left_ +
            (e.right_wheel_travel - m.prev_enc_right_)) / 2)) (t - m.prev_time_),
         0,
         F64.divq (.fin ((e.left_wheel_travel - m.prev_enc_left_ -
            (e.right_wheel_travel - m.prev_enc_right_)) / wb)) (t - m.prev_time_),
         0⟩ :=
  ⟨_, apply_of_enc G m Twc t e wb h hu hw, reconcile_prev_time G m Twc,
    reconcile_use_enc G m Twc, reconcile_enc_wheelbase G m Twc,
    reconcile_prev_enc_left G m Twc, reconcile_prev_enc_right G m Twc, rfl⟩

/-- C11, as stated, fails: an encoder-fused predictor whose first update was stamped 0 is
initialised, and at `t2 = 1 ≠ prev_time_` with `dL = dR = 2` `applyMotionModel` returns
the pose unchanged and the displacement `ξ · dt` is zero, where the claim has
`[0, 0, 2, 0, 0, 0]`. -/
theorem apply_at_stamp_zero_applies_no_displacement :
    Reachable vecOps encoderFused startedAtZero ∧
    startedAtZero.use_enc = some true ∧ (1 : ℚ) ≠ startedAtZero.prev_time_ ∧
    startedAtZero.prev_enc_left_ = 0 ∧ startedAtZero.prev_enc_right_ = 0 ∧
    applyMotionModel vecOps startedAtZero (translation 0 0 0) 1 (reading 2 2) =
      .ok (startedAtZero, translation 0 0 0) ∧
    startedAtZero.log_relT_.smul (1 - startedAtZero.prev_time_) = Vec6.Zero ∧
    Vec6.Zero ≠ ⟨0, 0, 2, 0, 0, 0⟩ ∧
    translation 0 0 0 ≠ vecOps.mul (translation 0 0 0) (vecOps.exp ⟨0, 0, 2, 0, 0, 0⟩) := by
  refine ⟨startedAtZero_reachable, rfl, by norm_num [startedAtZero], rfl, rfl,
    apply_of_uninit vecOps _ _ _ _ (by norm_num [startedAtZero]), ?_, ?_, ?_⟩
  · exact Vec6.zero_smul _
  · simp [Vec6.Zero]
  · simp [translation, vecOps]

/-- C11, amended: for every predictor with `prev_time_ > 0`, `use_enc = true` and
wheelbase `wb`, all poses `T1`, `T2`, times `t1`, `t2` and readings `e1`, `e2`:
`apply(T2, t2, e2)` executed right after `apply(T1, t1, e1)` returns the pose that
`apply(T2, t2, e2)` returns on the original state; and for `t2 ≠ prev_time_` the
applied displacement `ξ · dt` is `[0, 0, (dL + dR)/2, 0, (dL − dR)/wb, 0]` with `dL`,
`dR` measured from the travel stored at the last update, whatever `dt` is. -/
theorem apply_after_dropped_frame {P : Type} (G : SE3Ops P) (m : MotionModel P)
    (T1 T2 : P) (t1 t2 : ℚ) (e1 e2 : EncoderData) (wb : ℚ) (h : 0 < m.prev_time_)
    (hu : m.use_enc = some true) (hw : m.enc_wheelbase = some wb) :
    ∃ m1 T1' m2 m2' T2',
      applyMotionModel G m T1 t1 e1 = .ok (m1, T1') ∧
      applyMotionModel G m1 T2 t2 e2 = .ok (m2, T2') ∧
      applyMotionModel G m T2 t2 e2 = .ok (m2', T2') ∧
      (t2 ≠ m.prev_time_ →
        m2.log_relT_.smul (t2 - m.prev_time_) =
          ⟨0, 0,
           .fin ((e2.left_wheel_travel - m.prev_enc_left_ +
              (e2.right_wheel_travel - m.prev_enc_right_)) / 2),
           0,
           .fin ((e2.left_wheel_travel - m.prev_enc_left_ -
              (e2.right_wheel_travel - m.prev_enc_right_)) / wb),
           0⟩ ∧
        T2' = G.mul T2 (G.exp
          ⟨0, 0,
           .fin ((e2.left_wheel_travel - m.prev_enc_left_ +
              (e2.right_wheel_travel - m.prev_enc_right_)) / 2),
           0,
           .fin ((e2.left_wheel_travel - m.prev_enc_left_ -
              (e2.right_wheel_travel - m.prev_enc_right_)) / wb),
           0⟩)) := by
  obtain ⟨m1, hA, p1, u1, w1, l1, r1, -⟩ := apply_enc_pose G m T1 t1 e1 wb h hu hw
  obtain ⟨m2, hB1, -, -, -, -, -, tw⟩ := apply_enc_pose G m1 T2 t2 e2 wb (p1 ▸ h)
    (u1.trans hu) (w1.trans hw)
  obtain ⟨m2', hB, -⟩ := apply_enc_pose G m T2 t2 e2 wb h hu hw
  rw [p1, l1, r1] at hB1 tw
  refine ⟨m1, _, m2, m2', _, hA, hB1, hB, ?_⟩
  intro hne
  have hk : t2 - m.prev_time_ ≠ 0 := sub_ne_zero.mpr hne
  rw [tw, Vec6.enc_displacement _ _ _ hk]
  exact ⟨rfl, rfl⟩

/-- C11, amended, evaluated: from `rolling` (last update at time 1, travel 0), a
prediction at time 3 with travel (6, 6) returns the pose 6 m ahead, whether or not a
prediction at time 2 with travel (5, 5) was made and dropped before it. -/
theorem apply_after_dropped_frame_witness :
    ∃ m1 T1' m2 m2',
      applyMotionModel vecOps rolling (translation 0 0 0) 2 (reading 5 5) = .ok (m1, T1') ∧
      applyMotionModel vecOps m1 (translation 0 0 0) 3 (reading 6 6) =
        .ok (m2, translation 0 0 6) ∧
      applyMotionModel vecOps rolling (translation 0 0 0) 3 (reading 6 6) =
        .ok (m2', translation 0 0 6) := by
  obtain ⟨m1, T1', m2, m2', T2', hA, hB1, hB, hd⟩ := apply_after_dropped_frame vecOps rolling
    (translation 0 0 0) (translation 0 0 0) 2 3 (reading 5 5) (reading 6 6) (1 / 2)
    (by norm_num [rolling]) rfl rfl
  have hT : T2' = translation 0 0 6 := by
    rw [(hd (by norm_num [rolling])).2]
    simp [rolling, reading, vecOps, translation]
  rw [hT] at hB1 hB
  exact ⟨m1, T1', m2, m2', hA, hB1, hB⟩

/-! ### A stationary visual-only run -/

theorem reconcile_same_anchor {P : Type} (G : SE3Ops P) (m : MotionModel P) (Twc : P)
    (h : m.prevTwc_ = Twc) : (reconcile G m Twc).prevTwc_ = Twc := by
  unfold reconcile
  split_ifs
  · rfl
  · exact h

/-- One frame `apply(Pose, t, e)`, `update(Pose, t)` of a predictor at rest. -/
theorem AtRest.frame {P : Type} (G : SE3Ops P) (W : WheelEncoder)
    (hW : W.useWheelEncoder = false) (Pose : P)
    (hlog : G.log G.identity = Vec6.Zero) (hexp : G.exp Vec6.Zero = G.identity)
    (hinv : G.mul (G.inverse Pose) Pose = G.identity) (hone : G.mul Pose G.identity = Pose)
    {m : MotionModel P} (hm : AtRest Pose m) (t : ℚ) (e : EncoderData)
    (ht : 0 ≤ m.prev_time_ → m.prev_time_ < t) :
    ∃ m1 m2, (Call.apply Pose t e).exec G W m = .ok (m1, some Pose) ∧
      (Call.update Pose t).exec G W m1 = .ok (m2, none) ∧
      m1.log_relT_ = Vec6.Zero ∧ AtRest Pose m2 ∧ m2.prev_time_ = t := by
  obtain ⟨hz, hrest⟩ := hm
  -- the prediction
  have h1 : ∃ m1, applyMotionModel G m Pose t e = .ok (m1, Pose) ∧
      m1.prev_time_ = m.prev_time_ ∧ AtRest Pose m1 := by
    rcases le_or_lt m.prev_time_ 0 with h0 | h0
    · exact ⟨m, apply_of_uninit G m Pose t e h0, rfl, hz, hrest⟩
    · obtain ⟨hp, hu⟩ := hrest h0.le
      refine ⟨reconcile G m Pose, ?_, reconcile_prev_time G m Pose, ?_, fun _ => ⟨?_, ?_⟩⟩
      · rw [apply_of_vis G m Pose t e h0 hu, hz, Vec6.zero_smul, hexp, hone]
      · rw [reconcile_log_relT, hz]
      · exact reconcile_same_anchor G m Pose hp
      · rw [reconcile_use_enc, hu]
  obtain ⟨m1, ha, hp1, hz1, hrest1⟩ := h1
  -- the update
  have h2 : ∃ m2, updateMotionModel G W m1 Pose t = .ok m2 ∧ AtRest Pose m2 ∧
      m2.prev_time_ = t := by
    rcases lt_or_le m1.prev_time_ 0 with h0 | h0
    · refine ⟨_, update_of_uninit G W m1 Pose t h0, ⟨hz1, fun _ => ⟨rfl, ?_⟩⟩, rfl⟩
      show some W.useWheelEncoder = some false
      rw [hW]
    · obtain ⟨hp, hu⟩ := hrest1 h0
      have hlt : m1.prev_time_ < t := hp1 ▸ ht (hp1 ▸ h0)
      refine ⟨_, update_of_vis G W m1 Pose t h0 hlt.le hu, ⟨?_, fun _ => ⟨rfl, hu⟩⟩, rfl⟩
      show (G.log (G.mul (G.inverse m1.prevTwc_) Pose)).sdiv (t - m1.prev_time_) = Vec6.Zero
      rw [hp, hinv, hlog, Vec6.zero_sdiv _ (sub_ne_zero.mpr hlt.ne')]
  obtain ⟨m2, hb, hm2, hp2⟩ := h2
  exact ⟨m1, m2, exec_apply_ok G W ha, exec_update_ok G W hb, hz1, hm2, hp2⟩

theorem AtRest.run {P : Type} (G : SE3Ops P) (W : WheelEncoder)
    (hW : W.useWheelEncoder = false) (Pose : P)
    (hlog : G.log G.identity = Vec6.Zero) (hexp : G.exp Vec6.Zero = G.identity)
    (hinv : G.mul (G.inverse Pose) Pose = G.identity) (hone : G.mul Pose G.identity = Pose)
    (fs : List (ℚ × EncoderData)) :
    ∀ {m : MotionModel P}, AtRest Pose m →
      (∀ f ∈ fs, 0 ≤ m.prev_time_ → m.prev_time_ < f.1) →
      (fs.map Prod.fst).Pairwise (· < ·) →
      posesReturned G W m (stationaryCalls Pose fs) = .ok (fs.map fun _ => Pose) ∧
      ∃ ss, statesAlong G W m (stationaryCalls Pose fs) = .ok ss ∧
        ss.length = 2 * fs.length ∧ ∀ s ∈ ss, s.log_relT_ = Vec6.Zero := by
  induction fs with
  | nil => intro m _ _ _; exact ⟨rfl, [], rfl, rfl, by simp⟩
  | cons f fs ih =>
    intro m hm hlt hsorted
    obtain ⟨m1, m2, ha, hb, hz1, hm2, hp2⟩ := hm.frame G W hW Pose hlog hexp hinv hone f.1 f.2
      (hlt f (List.mem_cons_self _ _))
    rw [List.map_cons, List.pairwise_cons] at hsorted
    have hlt2 : ∀ g ∈ fs, 0 ≤ m2.prev_time_ → m2.prev_time_ < g.1 := by
      intro g hg _
      rw [hp2]
      exact hsorted.1 g.1 (List.mem_map_of_mem Prod.fst hg)
    obtain ⟨hposes, ss, hss, hlen, hall⟩ := ih hm2 hlt2 hsorted.2
    refine ⟨?_, m1 :: m2 :: ss, ?_, ?_, ?_⟩
    · simp only [stationaryCalls, posesReturned, ha, hb, hposes, List.map_cons]
    · simp only [stationaryCalls, statesAlong, ha, hb, hss]
    · simp only [List.length_cons, hlen]; ring
    · intro s hs
      rcases List.mem_cons.mp hs with rfl | hs
      · exact hz1
      · rcases List.mem_cons.mp hs with rfl | hs
        · exact hm2.1
        · exact hall s hs

/-- C12: with encoder use disabled, starting from a freshly constructed predictor, for
every sequence of frames at strictly increasing times, each processed as `apply(P, t_i)`
then `update(P, t_i)` with the same pose `P`: the run does not fault, every `apply`
returns `P` unchanged and the stored twist is zero after every call.  Assumed of the
pose operations: `log(identity) = 0`, `exp(0) = identity`, `P⁻¹ · P = identity` and
`P · identity = P`. -/
theorem stationary_sequence {P : Type} (G : SE3Ops P) (W : WheelEncoder)
    (hW : W.useWheelEncoder = false) (Pose : P)
    (hlog : G.log G.identity = Vec6.Zero) (hexp : G.exp Vec6.Zero = G.identity)
    (hinv : G.mul (G.inverse Pose) Pose = G.identity) (hone : G.mul Pose G.identity = Pose)
    (fs : List (ℚ × EncoderData)) (hsorted : (fs.map Prod.fst).Pairwise (· < ·)) :
    posesReturned G W (MotionModel.construct G) (stationaryCalls Pose fs) =
      .ok (fs.map fun _ => Pose) ∧
    ∃ ss, statesAlong G W (MotionModel.construct G) (stationaryCalls Pose fs) = .ok ss ∧
      ss.length = 2 * fs.length ∧ ∀ s ∈ ss, s.log_relT_ = Vec6.Zero :=
  AtRest.run G W hW Pose hlog hexp hinv hone fs
    ⟨rfl, fun h0 => absurd h0 (by norm_num [MotionModel.construct])⟩
    (fun _ _ h0 => absurd h0 (by norm_num [MotionModel.construct])) hsorted

theorem vecOps_inv_mul_identity :
    vecOps.mul (vecOps.inverse vecOps.identity) vecOps.identity = vecOps.identity := by
  simp [vecOps, Vec6.Zero]

/-- C12, evaluated on the scenario of the specification: ten frames at `dt = 0.05` with
the identity pose; every prediction is the identity and all twenty states after the
calls hold the zero twist. -/
theorem stationary_sequence_witness :
    posesReturned vecOps visualOnly (MotionModel.construct vecOps)
        (stationaryCalls vecOps.identity tenFrames) =
      .ok (List.replicate 10 vecOps.identity) ∧
    ∃ ss, statesAlong vecOps visualOnly (MotionModel.construct vecOps)
        (stationaryCalls vecOps.identity tenFrames) = .ok ss ∧
      ss.length = 20 ∧ ∀ s ∈ ss, s.log_relT_ = Vec6.Zero := by
  have key := stationary_sequence vecOps visualOnly rfl vecOps.identity rfl rfl
    vecOps_inv_mul_identity (vecOps_mul_identity _) tenFrames
    (by norm_num [tenFrames, List.pairwise_cons])
  exact ⟨key.1, key.2⟩

/-! ### The twist a visual update stores -/

/-- C13: for every predictor with `prev_time_ ≥ 0` and `use_enc = false`, anchor
`P = prevTwc_`, and every pose `Q` and time `t_new > prev_time_`:
`updateMotionModel(Q, t_new)` returns and stores the twist
`ξ = log(P⁻¹ · Q) / (t_new − prev_time_)`; hence `P · exp(ξ · (t_new − prev_time_)) = Q`;
and the next `apply(Q, t_new + dt)` with the same `dt = t_new − prev_time_` returns
`Q · (P⁻¹ · Q)`.  Assumed of the pose operations: `exp(log x) = x` and, for these `P`
and `Q`, `P · (P⁻¹ · Q) = Q`. -/
theorem update_twist_invariant {P : Type} (G : SE3Ops P) (W : WheelEncoder)
    (hexplog : ∀ x, G.exp (G.log x) = x)
    (m : MotionModel P) (Q : P) (t : ℚ) (enc : EncoderData)
    (hcancel : G.mul m.prevTwc_ (G.mul (G.inverse m.prevTwc_) Q) = Q)
    (h0 : 0 ≤ m.prev_time_) (hu : m.use_enc = some false) (ht : m.prev_time_ < t) :
    ∃ m', updateMotionModel G W m Q t = .ok m' ∧
      m'.log_relT_ = (G.log (G.mul (G.inverse m.prevTwc_) Q)).sdiv (t - m.prev_time_) ∧
      G.mul m.prevTwc_ (G.exp (m'.log_relT_.smul (t - m.prev_time_))) = Q ∧
      ∃ m'', applyMotionModel G m' Q (t + (t - m.prev_time_)) enc =
        .ok (m'', G.mul Q (G.mul (G.inverse m.prevTwc_) Q)) := by
  have hk : t - m.prev_time_ ≠ 0 := sub_ne_zero.mpr ht.ne'
  obtain ⟨m', hm', htw, hpt, hue⟩ : ∃ m', updateMotionModel G W m Q t = .ok m' ∧
      m'.log_relT_ = (G.log (G.mul (G.inverse m.prevTwc_) Q)).sdiv (t - m.prev_time_) ∧
      m'.prev_time_ = t ∧ m'.use_enc = some false :=
    ⟨_, update_of_vis G W m Q t h0 ht.le hu, rfl, rfl, hu⟩
  have hpos : 0 < m'.prev_time_ := hpt ▸ lt_of_le_of_lt h0 ht
  refine ⟨m', hm', htw, ?_, reconcile G m' Q, ?_⟩
  · rw [htw, Vec6.sdiv_smul _ _ hk, hexplog, hcancel]
  · rw [apply_of_vis G m' Q _ enc hpos hue, htw, hpt, add_sub_cancel_left,
      Vec6.sdiv_smul _ _ hk, hexplog]

theorem vecOps_exp_log (x : Vec6) : vecOps.exp (vecOps.log x) = x := rfl


/-- C13, evaluated: the cruising predictor (anchor 1 m ahead at time 2) accepts the pose
3 m ahead at time 3, stores 2 m/s, and predicts 5 m ahead for time 4. -/
theorem update_twist_invariant_witness :
    ∃ m', updateMotionModel vecOps visualOnly cruising (translation 0 0 3) 3 = .ok m' ∧
      m'.log_relT_ = ⟨0, 0, 2, 0, 0, 0⟩ ∧
      ∃ m'', applyMotionModel vecOps m' (translation 0 0 3) 4 (reading 0 0) =
        .ok (m'', translation 0 0 5) := by
  obtain ⟨m', h1, h2, -, m'', h4⟩ := update_twist_invariant vecOps visualOnly vecOps_exp_log
    cruising (translation 0 0 3) 3 (reading 0 0)
    (by simp [cruising, vecOps, translation]) (by norm_num [cruising]) rfl
    (by norm_num [cruising])
  refine ⟨m', h1, ?_, m'', ?_⟩
  · rw [h2]; simp [cruising, vecOps, translation, Vec6.sdiv, F64.divq]
    norm_num
  · have e1 : (3 : ℚ) + (3 - cruising.prev_time_) = 4 := by norm_num [cruising]
    have e2 : vecOps.mul (translation 0 0 3)
        (vecOps.mul (vecOps.inverse cruising.prevTwc_) (translation 0 0 3)) =
        translation 0 0 5 := by
      simp [cruising, vecOps, translation]
      norm_num
    rw [e1, e2] at h4
    exact h4

/-- C14, as stated, fails: a visual-only predictor whose first update, at the origin,
was stamped 0 is initialised; jumped 1 m sideways at time 1, `apply` changes nothing,
and the following `update` with the pose 1 m sideways, 2 m ahead stores the twist
`[1, 0, 2, 0, 0, 0]`, which holds the anchor from before the jump, where the claim has
`log(T'⁻¹ · Q)/(t − prev_time_) = [0, 0, 2, 0, 0, 0]`. -/
theorem jump_at_stamp_zero_leaks_anchor :
    Reachable vecOps visualOnly startedAtZeroVisual ∧
    startedAtZeroVisual.use_enc = some false ∧ startedAtZeroVisual.prev_time_ = 0 ∧
    startedAtZeroVisual.prev_time_ < 1 ∧
    (vecOps.log (vecOps.mul (translation 1 0 0)
      (vecOps.inverse startedAtZeroVisual.prevTwc_))).isZero (1 / 100000) = false ∧
    applyMotionModel vecOps startedAtZeroVisual (translation 1 0 0) 1 (reading 0 0) =
      .ok (startedAtZeroVisual, translation 1 0 0) ∧
    ∃ m2, updateMotionModel vecOps visualOnly startedAtZeroVisual (translation 1 0 2) 1 =
        .ok m2 ∧
      m2.log_relT_ = ⟨1, 0, 2, 0, 0, 0⟩ ∧
      (vecOps.log (vecOps.mul (vecOps.inverse (translation 1 0 0))
        (translation 1 0 2))).sdiv (1 - startedAtZeroVisual.prev_time_) =
          ⟨0, 0, 2, 0, 0, 0⟩ ∧
      m2.log_relT_ ≠ ⟨0, 0, 2, 0, 0, 0⟩ := by
  have htw : (vecOps.log (vecOps.mul (vecOps.inverse startedAtZeroVisual.prevTwc_)
      (translation 1 0 2))).sdiv (1 - startedAtZeroVisual.prev_time_) =
      ⟨1, 0, 2, 0, 0, 0⟩ := by
    simp [startedAtZeroVisual, vecOps, translation, Vec6.sdiv, F64.divq]
  refine ⟨startedAtZeroVisual_reachable, rfl, rfl, by norm_num [startedAtZeroVisual], ?_,
    apply_of_uninit vecOps _ _ _ _ (by norm_num [startedAtZeroVisual]),
    _, update_of_vis vecOps visualOnly startedAtZeroVisual _ 1
      (by norm_num [startedAtZeroVisual]) (by norm_num [startedAtZeroVisual]) rfl,
    htw, ?_, ?_⟩
  · simp [startedAtZeroVisual, vecOps, translation, Vec6.isZero]
    norm_num [abs_le]
  · simp [startedAtZeroVisual, vecOps, translation, Vec6.sdiv, F64.divq]
  · show Vec6.sdiv _ _ ≠ _
    rw [htw]; simp

/-- C14, amended: for every predictor with `prev_time_ > 0` and `use_enc = false`, every pose
`T'` whose difference `log(T' · prevTwc_⁻¹)` is not within the 1e-5 tolerance, every
accepted pose `Q` and every time `t > prev_time_`: `apply(T', t)` returns and leaves the
stored twist and `prev_time_` unchanged, and the following `update(Q, t)` returns and
leaves the twist `log(T'⁻¹ · Q) / (t − prev_time_)`, in which the anchor from before the
jump does not occur. -/
theorem jump_does_not_leak_anchor {P : Type} (G : SE3Ops P) (W : WheelEncoder)
    (m : MotionModel P) (T' Q : P) (t : ℚ) (enc : EncoderData) (h : 0 < m.prev_time_)
    (hu : m.use_enc = some false)
    (hfar : (G.log (G.mul T' (G.inverse m.prevTwc_))).isZero (1 / 100000) = false)
    (ht : m.prev_time_ < t) :
    ∃ m1 T1 m2, applyMotionModel G m T' t enc = .ok (m1, T1) ∧
      m1.log_relT_ = m.log_relT_ ∧ m1.prev_time_ = m.prev_time_ ∧
      updateMotionModel G W m1 Q t = .ok m2 ∧
      m2.log_relT_ = (G.log (G.mul (G.inverse T') Q)).sdiv (t - m.prev_time_) := by
  have hrec := reconcile_of_far G m T' hfar
  refine ⟨_, _, _, apply_of_vis G m T' t enc h hu, reconcile_log_relT G m T',
    reconcile_prev_time G m T', update_of_vis G W _ Q t ?_ ?_ ?_, ?_⟩
  · rw [reconcile_prev_time]; exact h.le
  · rw [reconcile_prev_time]; exact ht.le
  · rw [reconcile_use_enc]; exact hu
  · rw [hrec]

/-- C14, amended, evaluated: the cruising predictor is jumped 1 m sideways at time 3 and then
accepts the pose 1 m sideways, 3 m ahead; the twist is 2 m/s ahead with no sideways
component. -/
theorem jump_does_not_leak_anchor_witness :
    ∃ m1 T1 m2, applyMotionModel vecOps cruising (translation 1 0 1) 3 (reading 0 0) =
        .ok (m1, T1) ∧
      updateMotionModel vecOps visualOnly m1 (translation 1 0 3) 3 = .ok m2 ∧
      m2.log_relT_ = ⟨0, 0, 2, 0, 0, 0⟩ := by
  obtain ⟨m1, T1, m2, h1, -, -, h4, h5⟩ := jump_does_not_leak_anchor vecOps visualOnly
    cruising (translation 1 0 1) (translation 1 0 3) 3 (reading 0 0)
    (by norm_num [cruising]) rfl
    (by simp [vecOps, cruising, translation, Vec6.isZero]; norm_num [abs_le])
    (by norm_num [cruising])
  refine ⟨m1, T1, m2, h1, h4, ?_⟩
  rw [h5]; simp [cruising, vecOps, translation, Vec6.sdiv, F64.divq]
  norm_num

/-! ### Invariants of reachable states -/

/-- In a reachable state `use_enc` is unset or holds the configured value, and unless
it is `true` the four encoder travel members still hold their initial 0. -/
theorem Reachable.enc_fields {P : Type} {G : SE3Ops P} {W : WheelEncoder}
    {m : MotionModel P} (hR : Reachable G W m) :
    (m.use_enc = none ∨ m.use_enc = some W.useWheelEncoder) ∧
    (m.use_enc ≠ some true →
      m.enc_left = 0 ∧ m.enc_right = 0 ∧ m.prev_enc_left_ = 0 ∧ m.prev_enc_right_ = 0) := by
  induction hR with
  | construct => exact ⟨Or.inl rfl, fun _ => ⟨rfl, rfl, rfl, rfl⟩⟩
  | @apply m m' Twc Twc' t e _ h ih =>
    rcases apply_ok_cases G h with ⟨-, rfl, -⟩ | ⟨-, hu, rfl, -⟩ | ⟨-, hu, wb, -, rfl⟩
    · exact ih
    · refine ⟨by rw [reconcile_use_enc]; exact ih.1, fun _ => ?_⟩
      obtain ⟨a, b, c, d⟩ := ih.2 (by rw [hu]; simp)
      unfold reconcile
      split_ifs <;> exact ⟨a, b, c, d⟩
    · refine ⟨?_, fun hne => absurd ?_ hne⟩
      · show (reconcile G m Twc).use_enc = none ∨ _
        rw [reconcile_use_enc]; exact ih.1
      · show (reconcile G m Twc).use_enc = some true
        rw [reconcile_use_enc]; exact hu
  | @update m m' Twc t _ h ih =>
    rcases update_ok_cases G W h with ⟨-, rfl⟩ | ⟨-, -, hu, rfl⟩ | ⟨-, -, hu, rfl⟩
    · refine ⟨Or.inr rfl, fun hne => ?_⟩
      have hW : W.useWheelEncoder = false := by
        cases hw : W.useWheelEncoder with
        | false => rfl
        | true => exact absurd (show some W.useWheelEncoder = some true by rw [hw]) hne
      have hold : m.use_enc ≠ some true := by
        rcases ih.1 with hn | hs
        · rw [hn]; simp
        · rw [hs, hW]; simp
      obtain ⟨a, b, -, -⟩ := ih.2 hold
      exact ⟨a, b, a, b⟩
    · exact ⟨ih.1, fun hne => absurd hu hne⟩
    · refine ⟨ih.1, fun _ => ?_⟩
      obtain ⟨a, b, -, -⟩ := ih.2 (by rw [hu]; simp)
      exact ⟨a, b, a, b⟩
  | reset _ ih => exact ih

/-- C15: in every state reachable from construction by apply/update/reset calls in
which `use_enc = false` has been assigned, `updateMotionModel`, whenever it returns,
leaves the values of `prev_enc_left_` and `prev_enc_right_` unchanged, and
`applyMotionModel` returns and leaves `enc_left`, `enc_right`, `prev_enc_left_` and
`prev_enc_right_` unchanged. -/
theorem visual_mode_keeps_encoder_fields {P : Type} (G : SE3Ops P) (W : WheelEncoder)
    (m : MotionModel P) (hR : Reachable G W m) (hu : m.use_enc = some false) :
    (∀ Twc t m', updateMotionModel G W m Twc t = .ok m' →
      m'.prev_enc_left_ = m.prev_enc_left_ ∧ m'.prev_enc_right_ = m.prev_enc_right_) ∧
    (∀ Twc t e, ∃ m' Twc', applyMotionModel G m Twc t e = .ok (m', Twc') ∧
      m'.enc_left = m.enc_left ∧ m'.enc_right = m.enc_right ∧
      m'.prev_enc_left_ = m.prev_enc_left_ ∧ m'.prev_enc_right_ = m.prev_enc_right_) := by
  obtain ⟨a, b, c, d⟩ := hR.enc_fields.2 (by rw [hu]; simp)
  constructor
  · intro Twc t m' h
    rcases update_ok_cases G W h with ⟨-, rfl⟩ | ⟨-, -, hu', -⟩ | ⟨-, -, -, rfl⟩
    · exact ⟨a.trans c.symm, b.trans d.symm⟩
    · rw [hu] at hu'; cases hu'
    · exact ⟨a.trans c.symm, b.trans d.symm⟩
  · intro Twc t e
    rcases le_or_lt m.prev_time_ 0 with h0 | h0
    · exact ⟨m, Twc, apply_of_uninit G m Twc t e h0, rfl, rfl, rfl, rfl⟩
    · refine ⟨_, _, apply_of_vis G m Twc t e h0 hu, ?_⟩
      unfold reconcile
      split_ifs <;> exact ⟨rfl, rfl, rfl, rfl⟩

/-- C15, evaluated on the cruising predictor. -/
theorem visual_mode_keeps_encoder_fields_witness :
    (∃ m', updateMotionModel vecOps visualOnly cruising (translation 0 0 3) 3 = .ok m' ∧
      m'.prev_enc_left_ = cruising.prev_enc_left_ ∧
      m'.prev_enc_right_ = cruising.prev_enc_right_) ∧
    (∃ m' Twc', applyMotionModel vecOps cruising (translation 1 0 1) 3 (reading 7 8) =
        .ok (m', Twc') ∧ m'.enc_left = cruising.enc_left ∧
      m'.enc_right = cruising.enc_right) := by
  have key := visual_mode_keeps_encoder_fields vecOps visualOnly cruising
    cruising_reachable rfl
  obtain ⟨m', hm'⟩ := update_returns vecOps visualOnly cruising (translation 0 0 3) 3
    (Or.inr ⟨by norm_num [cruising], by simp [cruising]⟩)
  obtain ⟨m2, T2, h2, e1, e2, -, -⟩ := key.2 (translation 1 0 1) 3 (reading 7 8)
  exact ⟨⟨m', hm', key.1 _ _ m' hm'⟩, ⟨m2, T2, h2, e1, e2⟩⟩

/-- In a reachable state with negative stored time the stored twist is zero. -/
theorem Reachable.twist_zero_of_neg {P : Type} {G : SE3Ops P} {W : WheelEncoder}
    {m : MotionModel P} (hR : Reachable G W m) :
    m.prev_time_ < 0 → m.log_relT_ = Vec6.Zero := by
  induction hR with
  | construct => intro _; rfl
  | @apply m m' Twc Twc' t e _ h ih =>
    intro hlt
    rcases apply_ok_cases G h with ⟨-, rfl, -⟩ | ⟨h0, -, rfl, -⟩ | ⟨h0, -, wb, -, rfl⟩
    · exact ih hlt
    · rw [reconcile_prev_time] at hlt; exact absurd hlt (not_lt.mpr h0.le)
    · have hlt' : (reconcile G m Twc).prev_time_ < 0 := hlt
      rw [reconcile_prev_time] at hlt'; exact absurd hlt' (not_lt.mpr h0.le)
  | @update m m' Twc t _ h ih =>
    intro hlt
    rcases update_ok_cases G W h with ⟨h0, rfl⟩ | ⟨h0, ht, -, rfl⟩ | ⟨h0, ht, -, rfl⟩
    · exact ih h0
    · exact absurd (show t < 0 from hlt) (not_lt.mpr (h0.trans ht))
    · exact absurd (show t < 0 from hlt) (not_lt.mpr (h0.trans ht))
  | reset _ _ => intro _; rfl

/-- C16: in every state reachable from construction by apply/update/reset calls,
whenever the predictor is uninitialised (`prev_time_ < 0`) the stored twist is the zero
vector; hence the next update, the first after construction or reset, returns with zero
twist, `prev_time_ = t` and `prevTwc_ = Twc`. -/
theorem uninitialised_twist_is_zero {P : Type} (G : SE3Ops P) (W : WheelEncoder)
    (m : MotionModel P) (hR : Reachable G W m) (h : m.prev_time_ < 0) :
    m.log_relT_ = Vec6.Zero ∧
    ∀ Twc t, ∃ m', updateMotionModel G W m Twc t = .ok m' ∧
      m'.log_relT_ = Vec6.Zero ∧ m'.prev_time_ = t ∧ m'.prevTwc_ = Twc :=
  ⟨hR.twist_zero_of_neg h, fun Twc t =>
    ⟨_, update_of_uninit G W m Twc t h, hR.twist_zero_of_neg h, rfl, rfl⟩⟩

/-- C16, evaluated: `rolled` holds the twist 5 m/s; after `reset()` the twist is zero
and the first update stores its pose and time with zero twist. -/
theorem uninitialised_twist_is_zero_witness :
    rolled.log_relT_ = ⟨0, 0, 5, 0, 0, 0⟩ ∧ (reset rolled).prev_time_ < 0 ∧
    (reset rolled).log_relT_ = Vec6.Zero ∧
    ∃ m', updateMotionModel vecOps encoderFused (reset rolled) (translation 0 0 5) 10 =
        .ok m' ∧
      m'.log_relT_ = Vec6.Zero ∧ m'.prev_time_ = 10 ∧ m'.prevTwc_ = translation 0 0 5 := by
  have hneg : (reset rolled).prev_time_ < 0 := by norm_num [reset]
  have key := uninitialised_twist_is_zero vecOps encoderFused (reset rolled)
    (Reachable.reset rolled_reachable) hneg
  exact ⟨rfl, hneg, key.1, key.2 (translation 0 0 5) 10⟩

/-- In a reachable state whose stored time is not negative, the initialising branch of
`updateMotionModel` has assigned `use_enc` and `enc_wheelbase`. -/
theorem Reachable.config_assigned {P : Type} {G : SE3Ops P} {W : WheelEncoder}
    {m : MotionModel P} (hR : Reachable G W m) :
    0 ≤ m.prev_time_ →
      m.use_enc = some W.useWheelEncoder ∧ m.enc_wheelbase = some W.getWheelBase := by
  induction hR with
  | construct => intro h0; exact absurd h0 (by norm_num [MotionModel.construct])
  | @apply m m' Twc Twc' t e _ h ih =>
    intro h0
    rcases apply_ok_cases G h with ⟨-, rfl, -⟩ | ⟨hp, -, rfl, -⟩ | ⟨hp, -, wb, -, rfl⟩
    · exact ih h0
    · rw [reconcile_use_enc, reconcile_enc_wheelbase]; exact ih hp.le
    · show (reconcile G m Twc).use_enc = _ ∧ (reconcile G m Twc).enc_wheelbase = _
      rw [reconcile_use_enc, reconcile_enc_wheelbase]; exact ih hp.le
  | @update m m' Twc t _ h ih =>
    intro _
    rcases update_ok_cases G W h with ⟨-, rfl⟩ | ⟨hp, -, -, rfl⟩ | ⟨hp, -, -, rfl⟩
    · exact ⟨rfl, rfl⟩
    · exact ih hp
    · exact ih hp
  | reset _ _ => intro h0; exact absurd h0 (by norm_num [OV2SLAM.reset])

/-- The fault is not an idle case of the embedding: in a state with positive stored
time and `use_enc` unset, both methods end in the read of an unassigned member. -/
theorem corrupted_reads_unassigned :
    applyMotionModel vecOps corrupted (translation 0 0 0) 2 (reading 0 0) =
      .error .uninitRead ∧
    updateMotionModel vecOps visualOnly corrupted (translation 0 0 0) 2 =
      .error .uninitRead :=
  ⟨apply_of_unset vecOps corrupted _ _ _ (by norm_num [corrupted]) rfl,
   update_of_unset vecOps visualOnly corrupted _ _ (by norm_num [corrupted])
     (by norm_num [corrupted]) rfl⟩

/-- C17: with `use_enc` and `enc_wheelbase` unset at construction, in every state
reachable from a freshly constructed predictor by apply/update/reset calls, no call of
`applyMotionModel` or `updateMotionModel` reads `use_enc` or `enc_wheelbase` while it is
unassigned: whenever the stored time admits a read (`prev_time_ ≥ 0`) both hold the
values the initialising branch of `updateMotionModel` assigned. -/
theorem config_never_read_unassigned {P : Type} (G : SE3Ops P) (W : WheelEncoder)
    (m : MotionModel P) (hR : Reachable G W m) :
    (∀ Twc t e, applyMotionModel G m Twc t e ≠ .error .uninitRead) ∧
    (∀ Twc t, updateMotionModel G W m Twc t ≠ .error .uninitRead) ∧
    (0 ≤ m.prev_time_ →
      m.use_enc = some W.useWheelEncoder ∧ m.enc_wheelbase = some W.getWheelBase) := by
  refine ⟨fun Twc t e => ?_, fun Twc t => ?_, hR.config_assigned⟩
  · rcases le_or_lt m.prev_time_ 0 with h0 | h0
    · rw [apply_of_uninit G m Twc t e h0]; simp
    · obtain ⟨hu, hw⟩ := hR.config_assigned h0.le
      cases hb : W.useWheelEncoder with
      | false => rw [apply_of_vis G m Twc t e h0 (hb ▸ hu)]; simp
      | true => rw [apply_of_enc G m Twc t e _ h0 (hb ▸ hu) hw]; simp
  · rcases lt_or_le m.prev_time_ 0 with h0 | h0
    · rw [update_of_uninit G W m Twc t h0]; simp
    · rcases lt_or_le t m.prev_time_ with ht | ht
      · rw [update_of_regress G W m Twc t h0 ht]; simp
      · obtain ⟨hu, -⟩ := hR.config_assigned h0
        cases hb : W.useWheelEncoder with
        | false => rw [update_of_vis G W m Twc t h0 ht (hb ▸ hu)]; simp
        | true => rw [update_of_enc G W m Twc t h0 ht (hb ▸ hu)]; simp

/-- C17, evaluated on the reachable state `rolled`. -/
theorem config_never_read_unassigned_witness :
    applyMotionModel vecOps rolled (translation 0 0 5) 3 (reading 6 6) ≠
      .error .uninitRead ∧
    updateMotionModel vecOps encoderFused rolled (translation 0 0 5) 3 ≠
      .error .uninitRead ∧
    rolled.use_enc = some true ∧ rolled.enc_wheelbase = some (1 / 2) := by
  have key := config_never_read_unassigned vecOps encoderFused rolled rolled_reachable
  exact ⟨key.1 _ _ _, key.2.1 _ _, key.2.2 (by norm_num [rolled, rolling])⟩

/-! ### The divisors -/

/-- C18, as stated, fails: the cruising predictor (visual-only, last update at time 2)
accepts an update at time 2, returns, and recomputes the twist with `dt = 0`: the stored
twist is a quotient by zero and not finite; the rolling predictor (encoder-fused, last
update at time 1) computes the encoder velocities at time 1 ≥ `prev_time_` with
`dt = 0`, and both are not finite. -/
theorem zero_time_step_is_divided_by :
    (0 ≤ cruising.prev_time_ ∧ cruising.use_enc = some false ∧
      (2 : ℚ) - cruising.prev_time_ = 0 ∧
      ∃ m', updateMotionModel vecOps visualOnly cruising (translation 0 0 1) 2 = .ok m' ∧
        m'.log_relT_ =
          (vecOps.log (vecOps.mul (vecOps.inverse cruising.prevTwc_)
            (translation 0 0 1))).sdiv 0 ∧
        m'.log_relT_ = Vec6.nonfinite) ∧
    (0 < rolling.prev_time_ ∧ rolling.use_enc = some true ∧ rolling.prev_time_ ≤ 1 ∧
      (1 : ℚ) - rolling.prev_time_ = 0 ∧
      ∃ m' Twc', applyMotionModel vecOps rolling (translation 0 0 0) 1 (reading 1 1) =
          .ok (m', Twc') ∧
        m'.log_relT_.x2 = F64.divq (.fin 1) 0 ∧
        m'.log_relT_.x2 = .nonfinite ∧ m'.log_relT_.x4 = .nonfinite) := by
  have hc : (2 : ℚ) - cruising.prev_time_ = 0 := by norm_num [cruising]
  have hr : (1 : ℚ) - rolling.prev_time_ = 0 := by norm_num [rolling]
  refine ⟨⟨by norm_num [cruising], rfl, hc,
      _, update_of_vis vecOps visualOnly cruising _ 2 (by norm_num [cruising])
        (by norm_num [cruising]) rfl, ?_, ?_⟩,
    ⟨by norm_num [rolling], rfl, by norm_num [rolling], hr,
      _, _, apply_of_enc vecOps rolling _ 1 (reading 1 1) (1 / 2) (by norm_num [rolling])
        rfl rfl, ?_, ?_, ?_⟩⟩
  · show Vec6.sdiv _ (2 - cruising.prev_time_) = Vec6.sdiv _ 0
    rw [hc]
  · show Vec6.sdiv _ (2 - cruising.prev_time_) = Vec6.nonfinite
    rw [hc, Vec6.sdiv_zero]
  · simp only [hr, F64.divq_zero]
  · simp only [hr, F64.divq_zero]
  · simp only [hr, F64.divq_zero]

/-- C18, amended: whenever `updateMotionModel` returns and recomputes the twist
(`prev_time_ ≥ 0`, encoder disabled), the divisor `dt = t − prev_time_` of the stored
quotient is not negative, and when `t ≠ prev_time_` it is strictly positive and the
stored twist times `dt` is `log(prevTwc_⁻¹ · Twc)` again; whenever `applyMotionModel`
computes the encoder velocities (encoder enabled, `prev_time_ > 0`) at a time
`time > prev_time_`, its divisor `dt = time − prev_time_` is non-zero and both stored
velocities are finite. -/
theorem divisor_guard {P : Type} (G : SE3Ops P) (W : WheelEncoder) (m : MotionModel P)
    (Twc : P) (t : ℚ) (enc : EncoderData) (wb : ℚ) :
    (0 ≤ m.prev_time_ → m.use_enc = some false →
      ∀ m', updateMotionModel G W m Twc t = .ok m' →
        m'.log_relT_ =
          (G.log (G.mul (G.inverse m.prevTwc_) Twc)).sdiv (t - m.prev_time_) ∧
        0 ≤ t - m.prev_time_ ∧
        (t ≠ m.prev_time_ →
          0 < t - m.prev_time_ ∧
          m'.log_relT_.smul (t - m.prev_time_) =
            G.log (G.mul (G.inverse m.prevTwc_) Twc))) ∧
    (0 < m.prev_time_ → m.use_enc = some true → m.enc_wheelbase = some wb →
      m.prev_time_ < t →
      ∃ m' Twc', applyMotionModel G m Twc t enc = .ok (m', Twc') ∧
        t - m.prev_time_ ≠ 0 ∧
        m'.log_relT_.x2 =
          .fin ((enc.left_wheel_travel - m.prev_enc_left_ +
            (enc.right_wheel_travel - m.prev_enc_right_)) / 2 / (t - m.prev_time_)) ∧
        m'.log_relT_.x4 =
          .fin ((enc.left_wheel_travel - m.prev_enc_left_ -
            (enc.right_wheel_travel - m.prev_enc_right_)) / wb / (t - m.prev_time_))) := by
  constructor
  · intro h0 hu m' h
    rcases update_ok_cases G W h with ⟨hneg, -⟩ | ⟨-, -, hu', -⟩ | ⟨-, ht, -, rfl⟩
    · exact absurd hneg (not_lt.mpr h0)
    · rw [hu] at hu'; cases hu'
    · refine ⟨rfl, sub_nonneg.mpr ht, fun hne => ⟨?_, ?_⟩⟩
      · exact sub_pos.mpr (lt_of_le_of_ne ht (Ne.symm hne))
      · exact Vec6.sdiv_smul _ _ (sub_ne_zero.mpr hne)
  · intro h0 hu hw hlt
    have hk : t - m.prev_time_ ≠ 0 := sub_ne_zero.mpr hlt.ne'
    refine ⟨_, _, apply_of_enc G m Twc t enc wb h0 hu hw, hk, ?_, ?_⟩
    · exact F64.divq_fin _ _ hk
    · exact F64.divq_fin _ _ hk

/-- C18, amended, evaluated: one second after their last update the cruising update
stores the finite twist 2 m/s and the rolling prediction the finite velocity 3 m/s. -/
theorem divisor_guard_witness :
    (∃ m', updateMotionModel vecOps visualOnly cruising (translation 0 0 3) 3 = .ok m' ∧
      m'.log_relT_ = ⟨0, 0, 2, 0, 0, 0⟩) ∧
    (∃ m' Twc', applyMotionModel vecOps rolling (translation 0 0 0) 2 (reading 3 3) =
        .ok (m', Twc') ∧ m'.log_relT_.x2 = 3) := by
  have key := divisor_guard vecOps visualOnly cruising (translation 0 0 3) 3 (reading 0 0)
    (1 / 2)
  have key2 := divisor_guard vecOps encoderFused rolling (translation 0 0 0) 2 (reading 3 3)
    (1 / 2)
  constructor
  · obtain ⟨m', hm'⟩ := update_returns vecOps visualOnly cruising (translation 0 0 3) 3
      (Or.inr ⟨by norm_num [cruising], by simp [cruising]⟩)
    refine ⟨m', hm', ?_⟩
    rw [(key.1 (by norm_num [cruising]) rfl m' hm').1]
    simp [cruising, vecOps, translation, Vec6.sdiv, F64.divq]
    norm_num
  · obtain ⟨m', Twc', h1, -, h2, -⟩ := key2.2 (by norm_num [rolling]) rfl rfl
      (by norm_num [rolling])
    refine ⟨m', Twc', h1, ?_⟩
    rw [h2]; simp [rolling, reading]
    norm_num

/-! ### Constant-velocity prediction from a reachable state -/

theorem stalled_reachable : Reachable vecOps visualOnly stalled := by
  have h2 : updateMotionModel vecOps visualOnly startedAtZeroVisual (translation 0 0 1) 0 =
      .ok stalled := by
    rw [update_of_vis vecOps visualOnly startedAtZeroVisual _ 0
      (by norm_num [startedAtZeroVisual]) (by norm_num [startedAtZeroVisual]) rfl]
    simp [stalled, startedAtZeroVisual, Vec6.sdiv_zero, MotionModel.construct]
  exact Reachable.update startedAtZeroVisual_reachable h2

/-- C2, as stated, fails: after two updates of a fresh visual-only predictor, both
stamped 0, the stored twist is a quotient by `dt = 0` and not finite;
`applyMotionModel(T, prev_time_ + 1/20, enc)` returns `T` unchanged, which is not
`T · exp(ξ · dt)`. -/
theorem apply_after_zero_step_keeps_pose :
    Reachable vecOps visualOnly stalled ∧ stalled.use_enc = some false ∧
    stalled.log_relT_ = Vec6.nonfinite ∧
    applyMotionModel vecOps stalled (translation 0 0 1) (stalled.prev_time_ + 1 / 20)
        (reading 0 0) = .ok (stalled, translation 0 0 1) ∧
    translation 0 0 1 ≠
      vecOps.mul (translation 0 0 1) (vecOps.exp (stalled.log_relT_.smul (1 / 20))) := by
  refine ⟨stalled_reachable, rfl, rfl,
    apply_of_uninit vecOps _ _ _ _ (by norm_num [stalled, startedAtZeroVisual]), ?_⟩
  simp [stalled, translation, vecOps, Vec6.smul, Vec6.nonfinite]

/-- C2, amended: in every state reachable from construction by apply/update/reset calls
in which an update has assigned `use_enc = false`, with stored twist ξ, and whose stored
time is not 0 or whose stored twist is zero: for every pose `T` and every `dt` (in
particular every `dt > 0`), `applyMotionModel(T, prev_time_ + dt, enc)` returns and
replaces `T` by `T · exp(ξ · dt)`.  The pose operations are assumed to satisfy
`exp(0) = identity` and `T · identity = T`; they are needed where the stored time is not
positive, the call returns `T` itself and the stored twist is zero. -/
theorem apply_constant_velocity {P : Type} (G : SE3Ops P) (W : WheelEncoder)
    (hexp : G.exp Vec6.Zero = G.identity) (hone : ∀ a, G.mul a G.identity = a)
    (m : MotionModel P) (hR : Reachable G W m) (hu : m.use_enc = some false)
    (hz : m.prev_time_ ≠ 0 ∨ m.log_relT_ = Vec6.Zero)
    (T : P) (dt : ℚ) (enc : EncoderData) :
    ∃ m', applyMotionModel G m T (m.prev_time_ + dt) enc =
      .ok (m', G.mul T (G.exp (m.log_relT_.smul dt))) := by
  rcases le_or_lt m.prev_time_ 0 with h0 | h0
  · have htw : m.log_relT_ = Vec6.Zero := by
      rcases hz with hne | hzero
      · exact hR.twist_zero_of_neg (lt_of_le_of_ne h0 hne)
      · exact hzero
    refine ⟨m, ?_⟩
    rw [apply_of_uninit G m T _ enc h0, htw, Vec6.zero_smul, hexp, hone]
  · refine ⟨reconcile G m T, ?_⟩
    rw [apply_of_vis G m T _ enc h0 hu]
    simp

/-- C2, amended, evaluated: one twentieth of a second after its last update the
cruising predictor advances the pose by `exp(ξ / 20)`. -/
theorem apply_constant_velocity_witness :
    ∃ m', applyMotionModel vecOps cruising (translation 0 0 1)
        (cruising.prev_time_ + 1 / 20) (reading 0 0) =
      .ok (m', vecOps.mul (translation 0 0 1)
        (vecOps.exp (cruising.log_relT_.smul (1 / 20)))) :=
  apply_constant_velocity vecOps visualOnly rfl vecOps_mul_identity cruising
    cruising_reachable rfl (Or.inl (by norm_num [cruising])) (translation 0 0 1) (1 / 20)
    (reading 0 0)

end OV2SLAM
